import Mathlib

/-
Verification development for the ChampSim result-collection pipeline
(scripts/collect_data.py and scripts/collect_data_new.py).

The Python sources are shallowly embedded below:
  * Python values that occur in metric records are modelled by `PyVal`
    (ints as `Int`, floats as exact decimal rationals `Rat` plus explicit
    infinities, strings as `String`).
  * Python dicts are modelled as insertion-ordered association lists;
    `setAssoc` mirrors dict assignment (update in place, append if new).
  * The regular-expression searches of the source use a fixed alphabet of
    constructs (literal text, whitespace runs, digit runs, digit-or-dot
    runs, the accuracy character class, and a lazy dot-star).  `matchToks`
    implements exactly those constructs with the backtracking order of the
    Python engine (greedy quantifiers try longest first, the lazy star
    shortest first), and `searchFrom` gives the leftmost-search semantics
    of `re.search`.
  * Numeric conversion failures (`ValueError` from `float(...)`) and the
    `TypeError` that Python raises when comparing an int with a str are
    modelled by the `Except PyErr` monad.
-/

namespace ChampsimCollect

set_option maxRecDepth 1000000
set_option synthInstance.maxSize 4000
set_option synthInstance.maxHeartbeats 2000000

/-- Python runtime errors that the embedded code can raise. -/
inductive PyErr where
  | valueError
  | typeError
  deriving DecidableEq, Repr

/-- Python values stored in metric records and sort keys.  Floats are
modelled as exact decimal rationals; `inf` and `ninf` model the IEEE
infinities that `float("inf")` and `float("-inf")` produce. -/
inductive PyVal where
  | int (i : Int)
  | float (q : Rat)
  | inf
  | ninf
  | str (s : String)
  deriving DecidableEq, Repr

/-- A metric record: the insertion-ordered dict produced by
`parse_champsim_file`, mapping field name to value or `None`. -/
abbrev Record := List (String × Option PyVal)

/-- First-match association lookup, the semantics of Python dict access
(on dicts represented as insertion-ordered lists of pairs). -/
def lookupA {α : Type} : List (String × α) → String → Option α
  | [], _ => none
  | (k, v) :: r, q => if k = q then some v else lookupA r q

/-- Python dict assignment `d[k] = v`: overwrite in place if the key is
present (keys are unique, so replacing the first occurrence is dict
semantics), otherwise append at the end (insertion order). -/
def setAssoc {α : Type} : List (String × α) → String → α → List (String × α)
  | [], k, v => [(k, v)]
  | (k1, w) :: r, k, v =>
    if k1 = k then (k, v) :: r else (k1, w) :: setAssoc r k v

/-- Remove the entry with the given key (first occurrence), the effect of
`book.remove(book[name])` on a workbook with unique sheet names. -/
def eraseKey {α : Type} : List (String × α) → String → List (String × α)
  | [], _ => []
  | (k1, v) :: r, q => if k1 = q then r else (k1, v) :: eraseKey r q

/-- Python whitespace class `\s` (ASCII part, which is all the inputs use). -/
def isWsChar (c : Char) : Bool :=
  c = ' ' || c = '\t' || c = '\n' || c = '\r' || c = '\x0b' || c = '\x0c'

/-- Character class `[\d.]` used by the float-capturing groups. -/
def numChar (c : Char) : Bool := c.isDigit || c = '.'

/-- Character class `[\d.inf-]` used by the accuracy-capturing groups. -/
def accChar (c : Char) : Bool :=
  c.isDigit || c = '.' || c = 'i' || c = 'n' || c = 'f' || c = '-'

/-- Numeric value of a digit string, as computed by Python `int`. -/
def digitsToNat (cs : List Char) : Nat :=
  cs.foldl (fun n c => n * 10 + (c.toNat - 48)) 0

/-- The tokens that make up every regular expression in the source. -/
inductive Tok where
  | lit (s : String)
  | ws
  | skipDigits
  | capDigits
  | capNum
  | capAcc
  | lazyAny
  deriving Repr

/-- First success of `f` over a list of candidates, in order: the
backtracking search order of the regex engine. -/
def firstSome {α β : Type} (f : α → Option β) : List α → Option β
  | [] => none
  | a :: as =>
    match f a with
    | some b => some b
    | none => firstSome f as

/-- All ways to split off a nonempty run of `p`-characters, longest
first: the candidate order of a greedy `X+` quantifier. -/
def runSplits (p : Char → Bool) (cs : List Char) : List (List Char × List Char) :=
  let r := cs.takeWhile p
  let rest := cs.drop r.length
  (List.range r.length).map (fun i =>
    let k := r.length - i
    (r.take k, r.drop k ++ rest))

/-- Match a token sequence at the start of `cs` (the rest of the string is
unconstrained, as in `re.search`), returning the captured groups.
Quantifier candidates are tried in Python backtracking order. -/
def matchToks : List Tok → List Char → Option (List String)
  | [], _ => some []
  | Tok.lit s :: ts, cs =>
    if s.toList.isPrefixOf cs then matchToks ts (cs.drop s.toList.length) else none
  | Tok.ws :: ts, cs =>
    firstSome (fun pr => matchToks ts pr.2) (runSplits isWsChar cs)
  | Tok.skipDigits :: ts, cs =>
    firstSome (fun pr => matchToks ts pr.2) (runSplits Char.isDigit cs)
  | Tok.capDigits :: ts, cs =>
    firstSome (fun pr => (matchToks ts pr.2).map (fun caps => String.mk pr.1 :: caps))
      (runSplits Char.isDigit cs)
  | Tok.capNum :: ts, cs =>
    firstSome (fun pr => (matchToks ts pr.2).map (fun caps => String.mk pr.1 :: caps))
      (runSplits numChar cs)
  | Tok.capAcc :: ts, cs =>
    firstSome (fun pr => (matchToks ts pr.2).map (fun caps => String.mk pr.1 :: caps))
      (runSplits accChar cs)
  | Tok.lazyAny :: ts, cs =>
    let n := (cs.takeWhile (fun c => c != '\n')).length
    firstSome (fun k => matchToks ts (cs.drop k)) (List.range (n + 1))

/-- `re.search`: try each start position from the left, first match wins. -/
def searchFrom (toks : List Tok) : List Char → Option (List String)
  | [] => matchToks toks []
  | c :: rest =>
    match matchToks toks (c :: rest) with
    | some r => some r
    | none => searchFrom toks rest

instance {ε α : Type} [DecidableEq ε] [DecidableEq α] : DecidableEq (Except ε α) :=
  fun x y =>
    match x, y with
    | .ok a, .ok b =>
      if h : a = b then isTrue (by rw [h])
      else isFalse (fun hh => by cases hh; exact h rfl)
    | .error e, .error f =>
      if h : e = f then isTrue (by rw [h])
      else isFalse (fun hh => by cases hh; exact h rfl)
    | .ok _, .error _ => isFalse (fun hh => by cases hh)
    | .error _, .ok _ => isFalse (fun hh => by cases hh)

/-- Numerator and denominator of the exact decimal value of a
digits-and-dot literal, in the shape accepted by Python `float`: at most
one dot and at least one digit.  `none` models `ValueError`. -/
def pyFloatParts? (cs : List Char) : Option (Nat × Nat) :=
  match cs.splitOn '.' with
  | [ip] =>
    if ip ≠ [] ∧ ip.all Char.isDigit then some (digitsToNat ip, 1) else none
  | [ip, fp] =>
    if (ip ≠ [] ∨ fp ≠ []) ∧ ip.all Char.isDigit ∧ fp.all Char.isDigit then
      some (digitsToNat ip * 10 ^ fp.length + digitsToNat fp, 10 ^ fp.length)
    else none
  | _ => none

/-- Python `float` applied to a string drawn from the `[\d.]` class,
yielding the exact decimal value; `none` models `ValueError`. -/
def pyFloat? (s : String) : Option Rat :=
  match pyFloatParts? s.toList with
  | some p => some (mkRat p.1 p.2)
  | none => none

/-- Python `float` applied to a string drawn from the `[\d.inf-]` class:
an optional leading minus sign followed by `inf` or a digits-and-dot
literal; anything else raises `ValueError`. -/
def pyFloatAcc? (s : String) : Option PyVal :=
  match s.toList with
  | '-' :: rest =>
    if rest = ['i', 'n', 'f'] then some PyVal.ninf
    else
      match pyFloatParts? rest with
      | some p => some (PyVal.float (mkRat (-(p.1 : Int)) p.2))
      | none => none
  | cs =>
    if cs = ['i', 'n', 'f'] then some PyVal.inf
    else
      match pyFloatParts? cs with
      | some p => some (PyVal.float (mkRat p.1 p.2))
      | none => none

/-! ### Rule application helpers

Each helper mirrors one `re.search` block of `parse_champsim_file`: if the
pattern matches, convert the captured groups with `int` / `float` and
assign the fields; a failing `float` raises `ValueError` (propagated); a
non-matching pattern leaves the fields untouched. -/

/-- One float field: `metrics[f] = float(m.group(1))`. -/
def applyFloat1 (m : Record) (f : String) (toks : List Tok) (cs : List Char) :
    Except PyErr Record :=
  match searchFrom toks cs with
  | some (g1 :: _) =>
    match pyFloat? g1 with
    | some q => .ok (setAssoc m f (some (PyVal.float q)))
    | none => .error PyErr.valueError
  | _ => .ok m

/-- One int field: `metrics[f] = int(m.group(1))` (a `\d+` capture always
converts). -/
def applyInt1 (m : Record) (f : String) (toks : List Tok) (cs : List Char) :
    Except PyErr Record :=
  match searchFrom toks cs with
  | some (g1 :: _) => .ok (setAssoc m f (some (PyVal.int (digitsToNat g1.toList))))
  | _ => .ok m

/-- Two int fields from two `\d+` captures. -/
def applyInt2 (m : Record) (f1 f2 : String) (toks : List Tok) (cs : List Char) :
    Except PyErr Record :=
  match searchFrom toks cs with
  | some (g1 :: g2 :: _) =>
    .ok (setAssoc (setAssoc m f1 (some (PyVal.int (digitsToNat g1.toList))))
      f2 (some (PyVal.int (digitsToNat g2.toList))))
  | _ => .ok m

/-- Three int fields from three `\d+` captures. -/
def applyInt3 (m : Record) (f1 f2 f3 : String) (toks : List Tok) (cs : List Char) :
    Except PyErr Record :=
  match searchFrom toks cs with
  | some (g1 :: g2 :: g3 :: _) =>
    .ok (setAssoc (setAssoc (setAssoc m f1 (some (PyVal.int (digitsToNat g1.toList))))
      f2 (some (PyVal.int (digitsToNat g2.toList))))
      f3 (some (PyVal.int (digitsToNat g3.toList))))
  | _ => .ok m

/-- Four int fields from four `\d+` captures. -/
def applyInt4 (m : Record) (f1 f2 f3 f4 : String) (toks : List Tok) (cs : List Char) :
    Except PyErr Record :=
  match searchFrom toks cs with
  | some (g1 :: g2 :: g3 :: g4 :: _) =>
    .ok (setAssoc (setAssoc (setAssoc (setAssoc m
      f1 (some (PyVal.int (digitsToNat g1.toList))))
      f2 (some (PyVal.int (digitsToNat g2.toList))))
      f3 (some (PyVal.int (digitsToNat g3.toList))))
      f4 (some (PyVal.int (digitsToNat g4.toList))))
  | _ => .ok m

/-- Three int fields and a trailing float field, the shape of the
`ACCESS/HIT/MISS ... MPKI` rules. -/
def applyTotals (m : Record) (fa fh fm fk : String) (toks : List Tok)
    (cs : List Char) : Except PyErr Record :=
  match searchFrom toks cs with
  | some (g1 :: g2 :: g3 :: g4 :: _) =>
    match pyFloat? g4 with
    | some q =>
      .ok (setAssoc (setAssoc (setAssoc (setAssoc m
        fa (some (PyVal.int (digitsToNat g1.toList))))
        fh (some (PyVal.int (digitsToNat g2.toList))))
        fm (some (PyVal.int (digitsToNat g3.toList))))
        fk (some (PyVal.float q)))
    | none => .error PyErr.valueError
  | _ => .ok m

/-- The accuracy rules of `collect_data_new.py`: `float` is attempted and
a `ValueError` is caught, in which case the raw captured text is stored.
This helper never raises. -/
def applyAcc (m : Record) (f : String) (toks : List Tok) (cs : List Char) : Record :=
  match searchFrom toks cs with
  | some (g1 :: _) =>
    match pyFloatAcc? g1 with
    | some v => setAssoc m f (some v)
    | none => setAssoc m f (some (PyVal.str g1))
  | _ => m

/-! ### The extraction rule tables -/

def ipcToks : List Tok :=
  [Tok.lit "CPU 0 cumulative IPC:", Tok.ws, Tok.capNum]

def llcTotalToks : List Tok :=
  [Tok.lit "LLC TOTAL", Tok.ws, Tok.lit "ACCESS:", Tok.ws, Tok.capDigits, Tok.ws,
   Tok.lit "HIT:", Tok.ws, Tok.capDigits, Tok.ws, Tok.lit "MISS:", Tok.ws,
   Tok.capDigits, Tok.lazyAny, Tok.lit "MPKI:", Tok.ws, Tok.capNum]

def llcLoadToks : List Tok :=
  [Tok.lit "LLC LOAD", Tok.ws, Tok.lit "ACCESS:", Tok.ws, Tok.capDigits, Tok.ws,
   Tok.lit "HIT:", Tok.ws, Tok.capDigits, Tok.ws, Tok.lit "MISS:", Tok.ws,
   Tok.capDigits, Tok.lazyAny, Tok.lit "MPKI:", Tok.ws, Tok.capNum]

def l2cDataLoadMpkiToks : List Tok :=
  [Tok.lit "L2C DATA LOAD MPKI:", Tok.ws, Tok.capNum]

def l1dPrefetchReqToks : List Tok :=
  [Tok.lit "L1D PREFETCH", Tok.ws, Tok.lit "REQUESTED:", Tok.ws, Tok.capDigits,
   Tok.ws, Tok.lit "ISSUED:", Tok.ws, Tok.capDigits, Tok.ws, Tok.lit "USEFUL:",
   Tok.ws, Tok.capDigits, Tok.ws, Tok.lit "USELESS:", Tok.ws, Tok.capDigits]

def l1dUsefulLoadToks : List Tok :=
  [Tok.lit "L1D USEFUL LOAD PREFETCHES:", Tok.ws, Tok.capDigits]

def l1dTimelyToks : List Tok :=
  [Tok.lit "L1D TIMELY PREFETCHES:", Tok.ws, Tok.capDigits, Tok.ws,
   Tok.lit "LATE PREFETCHES:", Tok.ws, Tok.capDigits, Tok.ws,
   Tok.lit "DROPPED PREFETCHES:", Tok.ws, Tok.capDigits]

def llcLatencyToks : List Tok :=
  [Tok.lit "LLC AVERAGE MISS LATENCY:", Tok.ws, Tok.capNum]

/-- Initial metric dict of `parse_champsim_file` in `collect_data.py`:
every field starts as `None` except the trace-file name. -/
def initOld (basename : String) : Record :=
  [("Trace File", some (PyVal.str basename)),
   ("IPC", none),
   ("LLC Total Access", none),
   ("LLC Total Hits", none),
   ("LLC Total Misses", none),
   ("LLC Total MPKI", none),
   ("LLC Load Access", none),
   ("LLC Load Hit", none),
   ("LLC Load Miss", none),
   ("LLC Load MPKI", none),
   ("L2C Data Load MPKI", none),
   ("L1D Prefetch Requested", none),
   ("L1D Prefetch Issued", none),
   ("L1D Prefetch Useful", none),
   ("L1D Prefetch Useless", none),
   ("L1D Useful Load Prefetches", none),
   ("L1D Timely Prefetches", none),
   ("L1D Late Prefetches", none),
   ("L1D Dropped Prefetches", none),
   ("LLC Average Miss Latency", none)]

/-- `parse_champsim_file` of `collect_data.py`, applied to the text of a
readable file (`basename` is `os.path.basename(filepath)`).  An uncaught
`ValueError` from a malformed float capture aborts the whole record. -/
def parseChampsimOld (basename content : String) : Except PyErr Record := do
  let cs := content.toList
  let m := initOld basename
  let m ← applyFloat1 m "IPC" ipcToks cs
  let m ← applyTotals m "LLC Total Access" "LLC Total Hits" "LLC Total Misses"
    "LLC Total MPKI" llcTotalToks cs
  let m ← applyTotals m "LLC Load Access" "LLC Load Hit" "LLC Load Miss"
    "LLC Load MPKI" llcLoadToks cs
  let m ← applyFloat1 m "L2C Data Load MPKI" l2cDataLoadMpkiToks cs
  let m ← applyInt4 m "L1D Prefetch Requested" "L1D Prefetch Issued"
    "L1D Prefetch Useful" "L1D Prefetch Useless" l1dPrefetchReqToks cs
  let m ← applyInt1 m "L1D Useful Load Prefetches" l1dUsefulLoadToks cs
  let m ← applyInt3 m "L1D Timely Prefetches" "L1D Late Prefetches"
    "L1D Dropped Prefetches" l1dTimelyToks cs
  let m ← applyFloat1 m "LLC Average Miss Latency" llcLatencyToks cs
  .ok m

/-! Rule tables of `collect_data_new.py`. -/

def totalToksFor (level : String) : List Tok :=
  [Tok.lit (level ++ " TOTAL"), Tok.ws, Tok.lit "ACCESS:", Tok.ws, Tok.capDigits,
   Tok.ws, Tok.lit "HIT:", Tok.ws, Tok.capDigits, Tok.ws, Tok.lit "MISS:",
   Tok.ws, Tok.capDigits, Tok.lazyAny, Tok.lit "MPKI:", Tok.ws, Tok.capNum]

def prefetchAccessToksFor (level : String) : List Tok :=
  [Tok.lit (level ++ " PREFETCH"), Tok.ws, Tok.lit "ACCESS:", Tok.ws, Tok.capDigits]

def prefetchIssuedToksFor (level : String) : List Tok :=
  [Tok.lit (level ++ " PREFETCH"), Tok.ws, Tok.lit "REQUESTED:", Tok.ws,
   Tok.skipDigits, Tok.ws, Tok.lit "ISSUED:", Tok.ws, Tok.capDigits, Tok.ws,
   Tok.lit "USEFUL:", Tok.ws, Tok.capDigits]

def accuracyToksFor (level : String) : List Tok :=
  [Tok.lit (level ++ " USEFUL LOAD PREFETCHES:"), Tok.lazyAny,
   Tok.lit "ACCURACY:", Tok.ws, Tok.capAcc]

def latencyToksFor (level : String) : List Tok :=
  [Tok.lit (level ++ " AVERAGE MISS LATENCY:"), Tok.ws, Tok.capNum]

/-- Initial metric dict of `parse_champsim_file` in `collect_data_new.py`. -/
def initNew (basename : String) : Record :=
  [("Trace File", some (PyVal.str basename)),
   ("IPC", none),
   ("L1D Total Access", none), ("L1D Total Hit", none), ("L1D Total Miss", none),
   ("L1D Total MPKI", none),
   ("L1D Prefetch Access", none), ("L1D Prefetch Issued", none),
   ("L1D Prefetch Useful", none),
   ("L1D Prefetch Accuracy", none), ("L1D Average Miss Latency", none),
   ("L2C Total Access", none), ("L2C Total Hit", none), ("L2C Total Miss", none),
   ("L2C Total MPKI", none),
   ("L2C Prefetch Access", none), ("L2C Prefetch Issued", none),
   ("L2C Prefetch Useful", none),
   ("L2C Prefetch Accuracy", none), ("L2C Average Miss Latency", none),
   ("LLC Total Access", none), ("LLC Total Hit", none), ("LLC Total Miss", none),
   ("LLC Total MPKI", none),
   ("LLC Prefetch Access", none), ("LLC Prefetch Issued", none),
   ("LLC Prefetch Useful", none),
   ("LLC Prefetch Accuracy", none), ("LLC Average Miss Latency", none)]

/-- The canonical ordered header list that `parse_champsim_file(None)`
returns in `collect_data_new.py` (`list(metrics.keys())`). -/
def headersNew : List String := (initNew "").map Prod.fst

/-- The per-cache-level rule block of `collect_data_new.py` (identical for
L1D, L2C and LLC up to the level name). -/
def applyLevelRules (m : Record) (level : String) (cs : List Char) :
    Except PyErr Record := do
  let m ← applyTotals m (level ++ " Total Access") (level ++ " Total Hit")
    (level ++ " Total Miss") (level ++ " Total MPKI") (totalToksFor level) cs
  let m ← applyInt1 m (level ++ " Prefetch Access") (prefetchAccessToksFor level) cs
  let m ← applyInt2 m (level ++ " Prefetch Issued") (level ++ " Prefetch Useful")
    (prefetchIssuedToksFor level) cs
  let m := applyAcc m (level ++ " Prefetch Accuracy") (accuracyToksFor level) cs
  let m ← applyFloat1 m (level ++ " Average Miss Latency") (latencyToksFor level) cs
  .ok m

/-- `parse_champsim_file` of `collect_data_new.py` applied to the text of
a readable file. -/
def parseChampsimNew (basename content : String) : Except PyErr Record := do
  let cs := content.toList
  let m := initNew basename
  let m ← applyFloat1 m "IPC" ipcToks cs
  let m ← applyLevelRules m "L1D" cs
  let m ← applyLevelRules m "L2C" cs
  let m ← applyLevelRules m "LLC" cs
  .ok m

/-! ### Natural sorting (`natural_sort_key` and Python `sorted`) -/

/-- The chunking performed by `re.split('([0-9]+)', s)`: alternating
non-digit and digit chunks, starting and ending with a (possibly empty)
non-digit chunk.  `curr` is the reversed current chunk, `currIsDigit` its
kind. -/
def splitDigitsGo (curr : List Char) (currIsDigit : Bool) :
    List Char → List (List Char)
  | [] => if currIsDigit then [curr.reverse, []] else [curr.reverse]
  | c :: cs =>
    if c.isDigit = currIsDigit then splitDigitsGo (c :: curr) currIsDigit cs
    else curr.reverse :: splitDigitsGo [c] c.isDigit cs

/-- `re.split('([0-9]+)', s)` on the character list of `s`. -/
def reSplitDigits (cs : List Char) : List (List Char) :=
  splitDigitsGo [] false cs

/-- Python `str.isdigit` (ASCII inputs). -/
def pyIsDigit (cs : List Char) : Bool := !cs.isEmpty && cs.all Char.isDigit

/-- `natural_sort_key`: digit chunks become ints, other chunks are
lowercased strings. -/
def naturalSortKey (s : String) : List PyVal :=
  (reSplitDigits s.toList).map (fun t =>
    if pyIsDigit t then PyVal.int (digitsToNat t)
    else PyVal.str (String.mk (t.map Char.toLower)))

/-- Code-point lexicographic order on strings, Python `str.__lt__`. -/
def strLtB : List Char → List Char → Bool
  | [], [] => false
  | [], _ :: _ => true
  | _ :: _, [] => false
  | a :: as, b :: bs => if a = b then strLtB as bs else decide (a.toNat < b.toNat)

def strLt (a b : String) : Bool := strLtB a.data b.data

/-- Python `==` on the values that occur in sort keys (numeric values
compare across int/float, everything else only within its own type). -/
def pyValEq : PyVal → PyVal → Bool
  | PyVal.int a, PyVal.int b => a = b
  | PyVal.float a, PyVal.float b => a = b
  | PyVal.int a, PyVal.float b => (a : Rat) = b
  | PyVal.float a, PyVal.int b => a = (b : Rat)
  | PyVal.inf, PyVal.inf => true
  | PyVal.ninf, PyVal.ninf => true
  | PyVal.str a, PyVal.str b => a = b
  | _, _ => false

/-- Python `<` on the values that occur in sort keys: comparing an int
with a str raises `TypeError`. -/
def pyValLt : PyVal → PyVal → Except PyErr Bool
  | PyVal.int a, PyVal.int b => .ok (decide (a < b))
  | PyVal.float a, PyVal.float b => .ok (decide (a < b))
  | PyVal.int a, PyVal.float b => .ok (decide ((a : Rat) < b))
  | PyVal.float a, PyVal.int b => .ok (decide (a < (b : Rat)))
  | PyVal.inf, PyVal.inf => .ok false
  | PyVal.inf, PyVal.int _ => .ok false
  | PyVal.inf, PyVal.float _ => .ok false
  | PyVal.inf, PyVal.ninf => .ok false
  | PyVal.ninf, PyVal.ninf => .ok false
  | PyVal.ninf, PyVal.int _ => .ok true
  | PyVal.ninf, PyVal.float _ => .ok true
  | PyVal.ninf, PyVal.inf => .ok true
  | PyVal.int _, PyVal.inf => .ok true
  | PyVal.float _, PyVal.inf => .ok true
  | PyVal.int _, PyVal.ninf => .ok false
  | PyVal.float _, PyVal.ninf => .ok false
  | PyVal.str a, PyVal.str b => .ok (strLt a b)
  | _, _ => .error PyErr.typeError

/-- Python list `<`: elementwise, first difference decides; a proper
prefix is smaller. -/
def pyListLt : List PyVal → List PyVal → Except PyErr Bool
  | [], [] => .ok false
  | [], _ :: _ => .ok true
  | _ :: _, [] => .ok false
  | a :: as, b :: bs =>
    if pyValEq a b then pyListLt as bs else pyValLt a b

/-- Stable insertion of `x` into a list sorted by the key: `x` goes in
front of the first element it is strictly smaller than. -/
def insertByKey {α : Type} (key : α → List PyVal) (x : α) :
    List α → Except PyErr (List α)
  | [] => .ok [x]
  | y :: ys =>
    match pyListLt (key x) (key y) with
    | .error e => .error e
    | .ok true => .ok (x :: y :: ys)
    | .ok false =>
      match insertByKey key x ys with
      | .error e => .error e
      | .ok r => .ok (y :: r)

/-- Python `sorted(xs, key=key)` modelled as a stable insertion sort; a
`TypeError` raised by any comparison propagates. -/
def pySortByKey {α : Type} (key : α → List PyVal) :
    List α → Except PyErr (List α)
  | [] => .ok []
  | x :: xs =>
    match pySortByKey key xs with
    | .error e => .error e
    | .ok s => insertByKey key x s

/-- Insertion for plain lexicographic string sort. -/
def insertStr (x : String) : List String → List String
  | [] => [x]
  | y :: ys => if strLt x y then x :: y :: ys else y :: insertStr x ys

/-- Python `sorted` on strings (`sorted(data_by_prefetcher.keys())`). -/
def sortStrings : List String → List String
  | [] => []
  | x :: xs => insertStr x (sortStrings xs)

/-! ### Small string helpers used by the report headers -/

/-- Split a character list at a separator character, Python `str.split`. -/
def splitChar (sep : Char) : List Char → List (List Char)
  | [] => [[]]
  | c :: cs =>
    let r := splitChar sep cs
    if c = sep then [] :: r
    else
      match r with
      | [] => [[c]]
      | h :: t => (c :: h) :: t

/-- Python `str.upper` (ASCII). -/
def upperStr (s : String) : String := String.mk (s.toList.map Char.toUpper)

/-- Python `str.capitalize` (ASCII): first character uppercased, the rest
lowercased. -/
def pyCapitalize (s : String) : String :=
  match s.toList with
  | [] => ""
  | c :: rest => String.mk (c.toUpper :: rest.map Char.toLower)

/-- Python `str.title` (ASCII): a letter is uppercased when the previous
character is not a letter, lowercased otherwise. -/
def pyTitleGo : Bool → List Char → List Char
  | _, [] => []
  | prevAlpha, c :: rest =>
    (if c.isAlpha then (if prevAlpha then c.toLower else c.toUpper) else c)
      :: pyTitleGo c.isAlpha rest

def pyTitle (s : String) : String := String.mk (pyTitleGo false s.toList)

/-- Join a list of strings with a separator, Python `sep.join`. -/
def joinWith (sep : String) : List String → String
  | [] => ""
  | [x] => x
  | x :: xs => x ++ sep ++ joinWith sep xs

/-! ### Scanner and aggregation (the `os.walk` loop of `main`)

A `ScanEntry` is one file yielded by the directory walk: the path parts
of its directory relative to the results root, the file name, the
modification time reported by `os.path.getmtime`, and the file text
(`none` when opening the file raises `IOError`).  The walk yields the
files of one directory in sorted order; the embedding takes the walk
output as a list. -/

structure ScanEntry where
  dirParts : List String
  filename : String
  mtime : Nat
  content : Option String
  deriving DecidableEq, Repr

/-- Group/experiment derivation from the relative path parts (`main`,
both variants): three parts give `cache_level + "_" + prefetcher` and the
experiment, two parts are recognized only for the `no_pref` baseline, and
any other shape is skipped. -/
def classify : List String → Option (String × String)
  | [a, b, c] => some (a ++ "_" ++ b, c)
  | [a, b] => if a = "no_pref" then some (a, b) else none
  | _ => none

/-- `filepath = os.path.join(root, filename)` with the results-root
prefix of both variants. -/
def entryPath (e : ScanEntry) : String :=
  "../results/" ++ joinWith "/" (e.dirParts ++ [e.filename])

/-- `{group_key: {filepath: metrics}}`, the shape of both
`data_by_prefetcher` and the persisted data cache. -/
abbrev Dataset := List (String × List (String × Record))

/-- Nested lookup in a `Dataset`. -/
def lookup2 (d : Dataset) (g p : String) : Option Record :=
  match lookupA d g with
  | some m => lookupA m p
  | none => none

/-- `data_by_prefetcher[group_key][filepath] = record` on the nested
insertion-ordered dicts (the defaultdict creates the group on first
assignment). -/
def dataInsert : Dataset → String → String → Record → Dataset
  | [], g, p, r => [(g, [(p, r)])]
  | (g1, m) :: rest, g, p, r =>
    if g1 = g then (g1, setAssoc m p r) :: rest
    else (g1, m) :: dataInsert rest g p r

/-- Mutable state of the walk loop: the processed-files log (as updated
during the run), the dataset being rebuilt, the new/skipped counters, and
the list of file paths on which the extractor was invoked (observability
for cache-hit claims). -/
structure AggSt where
  log : List (String × Nat)
  data : Dataset
  newCount : Nat
  skipped : Nat
  parsed : List String
  deriving DecidableEq, Repr

def initAgg (log0 : List (String × Nat)) : AggSt :=
  { log := log0, data := [], newCount := 0, skipped := 0, parsed := [] }

/-- One iteration of the inner file loop of `main` (identical in both
variants up to the parser): cache hit reuses the cached record when
present and counts the file as skipped; otherwise the counter is bumped,
the extractor runs (an unreadable file yields `None` and is dropped), and
on success the record is stored and the log entry committed. -/
def aggStep (parse : String → String → Except PyErr Record) (cached : Dataset)
    (st : AggSt) (e : ScanEntry) : Except PyErr AggSt :=
  match classify e.dirParts with
  | none => .ok st
  | some (g, ex) =>
    let p := entryPath e
    if lookupA st.log p = some e.mtime then
      let data1 :=
        match lookup2 cached g p with
        | some r => dataInsert st.data g p r
        | none => st.data
      .ok { st with data := data1, skipped := st.skipped + 1 }
    else
      let st1 := { st with newCount := st.newCount + 1, parsed := st.parsed ++ [p] }
      match e.content with
      | none => .ok st1
      | some txt =>
        match parse e.filename txt with
        | .error er => .error er
        | .ok m =>
          let m1 := setAssoc m "Experiment" (some (PyVal.str ex))
          .ok { st1 with
            data := dataInsert st1.data g p m1,
            log := setAssoc st1.log p e.mtime }

/-- The whole walk loop; an uncaught parse exception aborts it. -/
def aggRun (parse : String → String → Except PyErr Record) (cached : Dataset) :
    AggSt → List ScanEntry → Except PyErr AggSt
  | st, [] => .ok st
  | st, e :: es =>
    match aggStep parse cached st e with
    | .error er => .error er
    | .ok st1 => aggRun parse cached st1 es

/-! ### Report synthesis

A worksheet is modelled as the list of written cells: coordinate
`(row, column)` (1-based, as in openpyxl) paired with the value written
there (`none` for a cell whose value is the missing-data placeholder that
pandas produces for an absent field in the old variant).  Styling (fonts,
fills, borders, merges, column widths) is presentation and is outside the
model; the preservation loop of `collect_data_new.py` copies cell values
verbatim, which on this representation is the identity. -/

abbrev Sheet := List ((Nat × Nat) × Option PyVal)

/-- A workbook: ordered list of named sheets. -/
abbrev Book := List (String × Sheet)

/-- `sheet_name.startswith('raw_')`, the ownership convention. -/
def startsWithRawB (s : String) : Bool :=
  List.isPrefixOf ("raw_".toList) s.toList

/-- `f"raw_{group_key}"`. -/
def rawName (g : String) : String := "raw_" ++ g

/-- The `Experiment` value attached to a record by the walk loop. -/
def getExp (r : Record) : String :=
  match lookupA r "Experiment" with
  | some (some (PyVal.str e)) => e
  | _ => ""

/-- `df['Experiment'].unique()`: first-occurrence order. -/
def dedupFirst (xs : List String) : List String :=
  xs.foldl (fun acc x => if x ∈ acc then acc else acc ++ [x]) []

/-- The group section header (`main`, both variants). -/
def mainHeaderTextFor (g : String) : String :=
  if g = "no_pref" then "Baseline (No Prefetcher)"
  else
    let parts := (splitChar '_' g.toList).map String.mk
    let cl := if 1 < parts.length then upperStr ((parts.get? 1).getD "") else ""
    let pn :=
      if 2 < parts.length then pyCapitalize (joinWith "_" (parts.drop 2))
      else pyCapitalize ((parts.get? 0).getD "")
    "Data Prefetcher: " ++ pn ++ " at " ++ cl

/-- The per-experiment sub-header (`main`, both variants): a descriptive
header when the experiment name has at least three parts separated by
underscores, otherwise the title-cased name. -/
def expHeaderText (ex : String) : String :=
  match (splitChar '_' ex.toList).map String.mk with
  | p0 :: p1 :: p2 :: _ =>
    "Experiment " ++ String.mk (p0.toList.filter Char.isDigit) ++
      ": Replacement Policy " ++ upperStr p1 ++ " at L2 and " ++ upperStr p2 ++
      " at LLC"
  | _ => pyTitle (String.mk (ex.toList.map (fun c => if c = '_' then ' ' else c)))

/-- One data row written at row index `r`. -/
def rowCells (r : Nat) (vals : List (Option PyVal)) : Sheet :=
  vals.enum.map (fun jv => ((r, jv.1 + 1), jv.2))

/-- Consecutive data rows starting at row index `start`. -/
def rowsCells (start : Nat) : List (List (Option PyVal)) → Sheet
  | [] => []
  | v :: vs => rowCells start v ++ rowsCells (start + 1) vs

/-- The experiment loop of `main`: for each experiment (already naturally
sorted) write a sub-header row and then one row per record of that
experiment, with a blank spacer row between experiment blocks. -/
def renderExpsGo (rowFn : Record → List (Option PyVal)) (recs : List Record) :
    List String → Nat → Sheet
  | [], _ => []
  | ex :: rest, currentRow =>
    let cr := if 3 < currentRow then currentRow + 1 else currentRow
    let er := recs.filter (fun r => getExp r = ex)
    (((cr + 1, 1), some (PyVal.str (expHeaderText ex))) ::
        rowsCells (cr + 2) (er.map rowFn))
      ++ renderExpsGo rowFn recs rest (cr + 1 + er.length)

/-- Shared sheet construction: merged main header on row 1, column
headers on row 3, then the experiment blocks in natural-sort order of the
experiment names (`sorted(df['Experiment'].unique(), key=natural_sort_key)`,
whose comparisons can raise `TypeError`). -/
def renderSheetCore (headers : List String) (rowFn : Record → List (Option PyVal))
    (mainText : String) (recs : List Record) : Except PyErr Sheet :=
  match pySortByKey naturalSortKey (dedupFirst (recs.map getExp)) with
  | .error e => .error e
  | .ok sortedE =>
    .ok ((((1, 1), some (PyVal.str mainText)) ::
        headers.enum.map (fun jh => ((3, jh.1 + 1), some (PyVal.str jh.2))))
      ++ renderExpsGo rowFn recs sortedE 3)

/-- Column headers of the old variant: the record fields without the
`Experiment` column (`df.drop(['Experiment'], axis=1)`; every record
produced by `parse_champsim_file` has this fixed key order). -/
def headersOld : List String := (initOld "").map Prod.fst

/-- Data row of the old variant: the raw field values (absent fields stay
absent; pandas renders them as a missing marker). -/
def recordRowOld (r : Record) : List (Option PyVal) :=
  headersOld.map (fun h => (lookupA r h).bind (fun x => x))

/-- Data row of the new variant:
`df_experiment.reindex(columns=headers).fillna('NaN')` — every canonical
column is present and an absent value becomes the string `"NaN"`. -/
def recordRowNew (r : Record) : List (Option PyVal) :=
  headersNew.map (fun h =>
    match lookupA r h with
    | some (some v) => some v
    | _ => some (PyVal.str "NaN"))

/-- One `raw_` sheet of `collect_data.py`. -/
def renderRawSheetOld (g : String) (recs : List Record) : Except PyErr Sheet :=
  renderSheetCore headersOld recordRowOld (mainHeaderTextFor g) recs

/-- One `raw_` sheet of `collect_data_new.py`. -/
def renderRawSheetNew (g : String) (recs : List Record) : Except PyErr Sheet :=
  renderSheetCore headersNew recordRowNew (mainHeaderTextFor g) recs

/-- The group loop of `collect_data.py`: the loaded workbook is edited in
place — for each group with data (in sorted key order) the existing
`raw_` sheet is removed and a fresh one is appended at the end. -/
def buildOldGo (ds : Dataset) : Book → List String → Except PyErr Book
  | bk, [] => .ok bk
  | bk, g :: gs =>
    match lookupA ds g with
    | none => buildOldGo ds bk gs
    | some recs =>
      if recs.isEmpty then buildOldGo ds bk gs
      else
        match renderRawSheetOld g (recs.map Prod.snd) with
        | .error e => .error e
        | .ok sh => buildOldGo ds (eraseKey bk (rawName g) ++ [(rawName g, sh)]) gs

/-- Report synthesis of `collect_data.py` given the previously persisted
workbook (or `none` when the report file does not exist). -/
def buildOldBook (ob : Option Book) (ds : Dataset) : Except PyErr Book :=
  buildOldGo ds (ob.getD []) (sortStrings (ds.map Prod.fst))

/-- The `raw_` sheets of `collect_data_new.py`, one per group with data,
in sorted group-key order. -/
def buildRaws (ds : Dataset) : List String → Except PyErr Book
  | [] => .ok []
  | g :: gs =>
    match lookupA ds g with
    | none => buildRaws ds gs
    | some recs =>
      if recs.isEmpty then buildRaws ds gs
      else
        match renderRawSheetNew g (recs.map Prod.snd) with
        | .error e => .error e
        | .ok sh =>
          match buildRaws ds gs with
          | .error e => .error e
          | .ok rest => .ok ((rawName g, sh) :: rest)

/-- Report synthesis of `collect_data_new.py`: a fresh workbook receives
value-for-value copies of every sheet of the previous report whose name
does not start with `raw_`, then the freshly rendered `raw_` sheets. -/
def buildNewBook (ob : Option Book) (ds : Dataset) : Except PyErr Book :=
  let preserved : Book :=
    match ob with
    | some b => b.filter (fun s => !(startsWithRawB s.1))
    | none => []
  match buildRaws ds (sortStrings (ds.map Prod.fst)) with
  | .error e => .error e
  | .ok raws => .ok (preserved ++ raws)

/-! ### The run model

`runOld` and `runNew` embed the `main` functions.  Persisted state is the
content of the processed-files log, the data cache, and the report file;
filesystem writes are additionally recorded as an effect trace in program
order.  A run parameter `saveOk` models whether the workbook save
(`book.save`) succeeds; the JSON saves only warn on failure and are
modelled as succeeding.  A run parameter `rootExists` models
`os.path.isdir(RESULTS_DIR)`.  An uncaught exception from the walk loop
(a `ValueError` from a malformed float) terminates the process with a
traceback and a nonzero exit status before anything is written; every
other path returns normally from `main`, so the process exits with 0. -/

/-- State of the report file on disk. -/
inductive ReportFile where
  | absent
  | intact (b : Book)
  | corrupt
  deriving DecidableEq, Repr

/-- Persisted state: the two cache files and the report file. -/
structure PState where
  logF : List (String × Nat)
  cacheF : Dataset
  reportF : ReportFile
  deriving DecidableEq, Repr

/-- Filesystem effects, in program order. -/
inductive Eff where
  | mkdirs (dir : String)
  | saveReport (path : String)
  | move (src dst : String)
  | saveJson (path : String)
  deriving DecidableEq, Repr

/-- Outcome of one run. -/
structure RunOut where
  pstate : PState
  newCount : Nat
  skippedCount : Nat
  parsed : List String
  trace : List Eff
  errs : List String
  infos : List String
  code : Nat
  crashed : Bool
  deriving DecidableEq, Repr

def resultsDir : String := "../results/"
def outDirOld : String := "../Extracted_Data/"
def reportPathOld : String := "../Extracted_Data/rnd.xlsx"
def logPathOld : String := "../Extracted_Data/.processed_files.log"
def cachePathOld : String := "../Extracted_Data/.data_cache.json"

def outDirNew : String := "/home/neeraj/OneDrive/Research_Data"
def reportPathNew : String := "/home/neeraj/OneDrive/Research_Data/data_dump.xlsx"
def tmpPathNew : String := "/tmp/data_dump.xlsx"
def logPathNew : String := "/home/neeraj/OneDrive/Research_Data/.processed_files.log"
def cachePathNew : String := "/home/neeraj/OneDrive/Research_Data/.data_cache.json"

def msgMissingRoot : String := "Error: Directory '../results/' not found."
def msgUpToDate : String := "Output is already up-to-date."
def msgExcelFail : String := "An error occurred while writing the Excel file."
def msgWarnPrevBook : String :=
  "Warning: Could not load or copy sheets from existing workbook."
def msgSuccess : String := "Successfully created/updated Excel file."

/-- `record.pop('_is_new', None)` over the whole dataset before the cache
is persisted. -/
def cleanCache (ds : Dataset) : Dataset :=
  ds.map (fun gr => (gr.1, gr.2.map (fun pr =>
    (pr.1, pr.2.filter (fun kv => kv.1 ≠ "_is_new")))))

/-- Loading the previous workbook: `none` models the exception raised by
`load_workbook` on a corrupt file. -/
def loadPrev : ReportFile → Option (Option Book)
  | ReportFile.absent => some none
  | ReportFile.intact b => some (some b)
  | ReportFile.corrupt => none

/-- `main` of `collect_data.py`.  The output directory is created first;
a missing results root prints one error and returns; a fully cached scan
prints the no-op message and returns before any write; otherwise the
workbook is rebuilt and saved directly to the final report path, and only
after a successful save are the two cache files rewritten.  Any exception
in the synthesis/write block is caught, printed, and nothing further is
written (the failure is modelled as occurring before the report file is
modified). -/
def runOld (rootExists : Bool) (scan : List ScanEntry) (saveOk : Bool)
    (ps : PState) : RunOut :=
  if rootExists = false then
    ⟨ps, 0, 0, [], [Eff.mkdirs outDirOld], [msgMissingRoot], [], 0, false⟩
  else
    match aggRun parseChampsimOld ps.cacheF (initAgg ps.logF) scan with
    | .error _ => ⟨ps, 0, 0, [], [Eff.mkdirs outDirOld], [], [], 1, true⟩
    | .ok st =>
      if st.newCount = 0 then
        ⟨ps, 0, st.skipped, st.parsed, [Eff.mkdirs outDirOld], [], [msgUpToDate],
          0, false⟩
      else
        match loadPrev ps.reportF with
        | none =>
          ⟨ps, st.newCount, st.skipped, st.parsed, [Eff.mkdirs outDirOld],
            [msgExcelFail], [], 0, false⟩
        | some ob =>
          match buildOldBook ob st.data with
          | .error _ =>
            ⟨ps, st.newCount, st.skipped, st.parsed, [Eff.mkdirs outDirOld],
              [msgExcelFail], [], 0, false⟩
          | .ok bk =>
            if saveOk then
              ⟨⟨st.log, cleanCache st.data, ReportFile.intact bk⟩,
                st.newCount, st.skipped, st.parsed,
                [Eff.mkdirs outDirOld, Eff.saveReport reportPathOld,
                 Eff.saveJson cachePathOld, Eff.saveJson logPathOld],
                [], [msgSuccess], 0, false⟩
            else
              ⟨ps, st.newCount, st.skipped, st.parsed, [Eff.mkdirs outDirOld],
                [msgExcelFail], [], 0, false⟩

/-- Synthesis-and-save phase of `main` in `collect_data_new.py`, after
the walk loop found new files: build the new workbook (preserving the
non-`raw_` sheets of `ob`, with `warns` carrying the degradation warning
when the previous report could not be read), save it to the temporary
path and move it onto the final path; the caches are written only after
a successful save, and a failed save leaves the persisted state
untouched. -/
def runNewFinish (ps : PState) (st : AggSt) (warns : List String)
    (ob : Option Book) (saveOk : Bool) : RunOut :=
  match buildNewBook ob st.data with
  | .error _ =>
    ⟨ps, st.newCount, st.skipped, st.parsed, [Eff.mkdirs outDirNew],
      [msgExcelFail], warns, 0, false⟩
  | .ok bk =>
    if saveOk then
      ⟨⟨st.log, cleanCache st.data, ReportFile.intact bk⟩,
        st.newCount, st.skipped, st.parsed,
        [Eff.mkdirs outDirNew, Eff.saveReport tmpPathNew,
         Eff.move tmpPathNew reportPathNew,
         Eff.saveJson cachePathNew, Eff.saveJson logPathNew],
        [], warns ++ [msgSuccess], 0, false⟩
    else
      ⟨ps, st.newCount, st.skipped, st.parsed, [Eff.mkdirs outDirNew],
        [msgExcelFail], warns, 0, false⟩

/-- `main` of `collect_data_new.py`.  Differences from `runOld`: a
corrupt previous report degrades to an empty preserved set with a warning
instead of failing the run; the rebuilt workbook is saved to a temporary
path and moved onto the final report path only on success, so a failed
save leaves the persisted state untouched. -/
def runNew (rootExists : Bool) (scan : List ScanEntry) (saveOk : Bool)
    (ps : PState) : RunOut :=
  if rootExists = false then
    ⟨ps, 0, 0, [], [Eff.mkdirs outDirNew], [msgMissingRoot], [], 0, false⟩
  else
    match aggRun parseChampsimNew ps.cacheF (initAgg ps.logF) scan with
    | .error _ => ⟨ps, 0, 0, [], [Eff.mkdirs outDirNew], [], [], 1, true⟩
    | .ok st =>
      if st.newCount = 0 then
        ⟨ps, 0, st.skipped, st.parsed, [Eff.mkdirs outDirNew], [], [msgUpToDate],
          0, false⟩
      else
        match loadPrev ps.reportF with
        | none => runNewFinish ps st [msgWarnPrevBook] none saveOk
        | some ob => runNewFinish ps st [] ob saveOk

/-! ### Helper accessors used in claim statements -/

/-- Field access through the `Except` wrapper: `none` when the extractor
raised or the field name does not exist. -/
def fieldOf (res : Except PyErr Record) (k : String) : Option (Option PyVal) :=
  match res with
  | .ok r => lookupA r k
  | .error _ => none

/-- Unwrap a built workbook (empty book when synthesis raised). -/
def bookOfExcept (b : Except PyErr Book) : Book :=
  match b with
  | .ok bb => bb
  | .error _ => []

/-- A fresh, readable, recognized entry used by concrete run evaluations
(its empty content parses to an all-absent record). -/
def freshEntry : ScanEntry :=
  ⟨["pref_l1", "berti", "exp1_lru_lru"], "trace.txt", 5, some ""⟩

/-- Entry, log and cache for the C3 witness: a cache hit whose record is
present in the data cache. -/
def c3wEntry : ScanEntry := ⟨["no_pref", "exp1"], "t.txt", 7, some ""⟩

def c3wRec : Record := [("IPC", some (PyVal.float 1))]

def c3wLog : List (String × Nat) := [(entryPath c3wEntry, 7)]

def c3wCache : Dataset := [("no_pref", [(entryPath c3wEntry, c3wRec)])]

def c3wSt2 : AggSt :=
  ⟨c3wLog, [("no_pref", [(entryPath c3wEntry, c3wRec)])], 0, 1, []⟩

/-- An unreadable changed file in the baseline layout, for the C9
witness. -/
def unreadableEntry : ScanEntry := ⟨["no_pref", "exp1"], "t.txt", 5, none⟩

/-- Unwrap a rendered sheet (empty sheet when rendering raised). -/
def sheetOfExcept (s : Except PyErr Sheet) : Sheet :=
  match s with
  | .ok sh => sh
  | .error _ => []

/-- Data for the C6 witness: a previous workbook with one hand-made
sheet and one stale pipeline sheet, and a one-record dataset. -/
def c6Rec : Record :=
  [("Trace File", some (PyVal.str "t")), ("Experiment", some (PyVal.str "exp1"))]

def c6Ds : Dataset := [("no_pref", [("p1", c6Rec)])]

def c6Ob : Book :=
  [("notes", [((1, 1), some (PyVal.str "keep"))]), ("raw_no_pref", [])]

/-! ### Association-list lemmas -/

theorem lookupA_append_some {α : Type} {xs ys : List (String × α)} {q : String}
    {v : α} (h : lookupA xs q = some v) : lookupA (xs ++ ys) q = some v := by
  induction xs with
  | nil => simp [lookupA] at h
  | cons kv r ih =>
    obtain ⟨k, w⟩ := kv
    by_cases hk : k = q
    · subst hk
      simp only [lookupA, if_pos rfl] at h
      simpa [lookupA] using h
    · simp only [lookupA, hk, if_false] at h
      simp only [List.cons_append, lookupA, hk, if_false]
      exact ih h

theorem lookupA_append_none {α : Type} {xs : List (String × α)} {q : String}
    (ys : List (String × α)) (h : lookupA xs q = none) :
    lookupA (xs ++ ys) q = lookupA ys q := by
  induction xs with
  | nil => simp
  | cons kv r ih =>
    obtain ⟨k, w⟩ := kv
    by_cases hk : k = q
    · simp [lookupA, hk] at h
    · simp only [lookupA, hk, if_false] at h
      simp only [List.cons_append, lookupA, hk, if_false]
      exact ih h

theorem lookupA_setAssoc_self {α : Type} (m : List (String × α)) (k : String)
    (v : α) : lookupA (setAssoc m k v) k = some v := by
  induction m with
  | nil => simp [setAssoc, lookupA]
  | cons kv r ih =>
    obtain ⟨k1, w⟩ := kv
    by_cases h1 : k1 = k
    · simp [setAssoc, h1, lookupA]
    · simp [setAssoc, h1, lookupA, ih]

theorem lookupA_setAssoc_ne {α : Type} (m : List (String × α)) {k q : String}
    (v : α) (h : q ≠ k) : lookupA (setAssoc m k v) q = lookupA m q := by
  induction m with
  | nil => simp [setAssoc, lookupA, Ne.symm h]
  | cons kv r ih =>
    obtain ⟨k1, w⟩ := kv
    by_cases h1 : k1 = k
    · subst h1
      simp [setAssoc, lookupA, Ne.symm h]
    · by_cases h2 : k1 = q
      · subst h2
        simp [setAssoc, h1, lookupA, h]
      · simp [setAssoc, h1, lookupA, h2, ih]

theorem lookupA_of_mem_nodup {α : Type} {m : List (String × α)} {k : String}
    {v : α} (hmem : (k, v) ∈ m) (hnd : (m.map Prod.fst).Nodup) :
    lookupA m k = some v := by
  induction m with
  | nil => simp at hmem
  | cons kv r ih =>
    obtain ⟨k1, v1⟩ := kv
    simp only [List.map_cons, List.nodup_cons] at hnd
    rcases List.mem_cons.mp hmem with h | h
    · cases h
      simp [lookupA]
    · have hk : k1 ≠ k := by
        intro he
        subst he
        exact hnd.1 (List.mem_map.mpr ⟨(k1, v), h, rfl⟩)
      simp [lookupA, hk, ih h hnd.2]

theorem lookupA_eq_none_of_not_mem {α : Type} {m : List (String × α)}
    {q : String} (h : ∀ kv ∈ m, Prod.fst kv ≠ q) : lookupA m q = none := by
  induction m with
  | nil => rfl
  | cons kv r ih =>
    obtain ⟨k1, v1⟩ := kv
    have h1 : k1 ≠ q := h (k1, v1) (List.mem_cons_self _ _)
    simp only [lookupA, h1, if_false]
    exact ih (fun kv hm => h kv (List.mem_cons_of_mem _ hm))

/-! ### Dataset lemmas -/

theorem lookup2_dataInsert_self (d : Dataset) (g p : String) (r : Record) :
    lookup2 (dataInsert d g p r) g p = some r := by
  induction d with
  | nil => simp [dataInsert, lookup2, lookupA, lookupA_setAssoc_self]
  | cons gr rest ih =>
    obtain ⟨g1, m⟩ := gr
    by_cases h1 : g1 = g
    · subst h1
      simp [dataInsert, lookup2, lookupA, lookupA_setAssoc_self]
    · simp only [dataInsert, h1, if_false]
      simp only [lookup2, lookupA, h1, if_false] at ih ⊢
      exact ih

theorem lookup2_dataInsert_ne (d : Dataset) {g gq p q : String} (r : Record)
    (h : q ≠ p) : lookup2 (dataInsert d g p r) gq q = lookup2 d gq q := by
  induction d with
  | nil =>
    by_cases h2 : g = gq <;>
      simp [dataInsert, lookup2, lookupA, h2, Ne.symm h]
  | cons gr rest ih =>
    obtain ⟨g1, m⟩ := gr
    by_cases h1 : g1 = g
    · subst h1
      by_cases h2 : g1 = gq
      · simp [dataInsert, lookup2, lookupA, h2, lookupA_setAssoc_ne _ _ h]
      · simp [dataInsert, lookup2, lookupA, h2]
    · by_cases h2 : g1 = gq
      · subst h2
        simp [dataInsert, h1, lookup2, lookupA]
      · simp only [dataInsert, h1, if_false]
        simp only [lookup2, lookupA, h2, if_false] at ih ⊢
        exact ih

/-! ### Aggregation-loop lemmas -/

theorem aggStep_log_ne {parse : String → String → Except PyErr Record}
    {c : Dataset} {st st2 : AggSt} {e : ScanEntry} {q : String}
    (h : aggStep parse c st e = .ok st2) (hq : q ≠ entryPath e) :
    lookupA st2.log q = lookupA st.log q := by
  simp only [aggStep] at h
  split at h
  · cases h; rfl
  · split at h
    · cases h; rfl
    · split at h
      · cases h; rfl
      · split at h
        · exact absurd h (by simp)
        · cases h
          exact lookupA_setAssoc_ne _ _ hq

theorem aggStep_log_self {parse : String → String → Except PyErr Record}
    {c : Dataset} {st st2 : AggSt} {e : ScanEntry}
    (h : aggStep parse c st e = .ok st2)
    (hrec : (classify e.dirParts).isSome) (hread : e.content ≠ none) :
    lookupA st2.log (entryPath e) = some e.mtime := by
  simp only [aggStep] at h
  split at h
  · rename_i heq
    rw [heq] at hrec
    simp at hrec
  · rename_i g ex heq
    split at h
    · rename_i hhit
      cases h
      exact hhit
    · split at h
      · rename_i hcon
        exact absurd hcon hread
      · split at h
        · exact absurd h (by simp)
        · cases h
          exact lookupA_setAssoc_self _ _ _

theorem aggStep_count_mono {parse : String → String → Except PyErr Record}
    {c : Dataset} {st st2 : AggSt} {e : ScanEntry}
    (h : aggStep parse c st e = .ok st2) : st.newCount ≤ st2.newCount := by
  simp only [aggStep] at h
  split at h
  · cases h; exact Nat.le_refl _
  · split at h
    · cases h; exact Nat.le_refl _
    · split at h
      · cases h; exact Nat.le_succ _
      · split at h
        · exact absurd h (by simp)
        · cases h; exact Nat.le_succ _

theorem aggRun_count_mono {parse : String → String → Except PyErr Record}
    {c : Dataset} {st st2 : AggSt} {es : List ScanEntry}
    (h : aggRun parse c st es = .ok st2) : st.newCount ≤ st2.newCount := by
  induction es generalizing st with
  | nil => cases h; exact Nat.le_refl _
  | cons f fs ih =>
    simp only [aggRun] at h
    split at h
    · exact absurd h (by simp)
    · rename_i st1 heq
      exact Nat.le_trans (aggStep_count_mono heq) (ih h)

theorem aggRun_log_ne {parse : String → String → Except PyErr Record}
    {c : Dataset} {st st2 : AggSt} {es : List ScanEntry} {q : String}
    (h : aggRun parse c st es = .ok st2) (hq : ∀ e ∈ es, entryPath e ≠ q) :
    lookupA st2.log q = lookupA st.log q := by
  induction es generalizing st with
  | nil => cases h; rfl
  | cons f fs ih =>
    simp only [aggRun] at h
    split at h
    · exact absurd h (by simp)
    · rename_i st1 heq
      rw [ih h (fun e he => hq e (List.mem_cons_of_mem _ he)),
        aggStep_log_ne heq (fun hc => hq f (List.mem_cons_self _ _) hc.symm)]

theorem aggRun_log_self {parse : String → String → Except PyErr Record}
    {c : Dataset} {st st2 : AggSt} {es : List ScanEntry} {e : ScanEntry}
    (h : aggRun parse c st es = .ok st2)
    (hnd : (es.map entryPath).Nodup) (he : e ∈ es)
    (hrec : (classify e.dirParts).isSome) (hread : e.content ≠ none) :
    lookupA st2.log (entryPath e) = some e.mtime := by
  induction es generalizing st with
  | nil => simp at he
  | cons f fs ih =>
    simp only [aggRun] at h
    split at h
    · exact absurd h (by simp)
    · rename_i st1 heq
      simp only [List.map_cons, List.nodup_cons] at hnd
      rcases List.mem_cons.mp he with hef | hef
      · subst hef
        rw [aggRun_log_ne h (fun e' he' hpe => hnd.1 (List.mem_map.mpr ⟨e', he', hpe⟩))]
        exact aggStep_log_self heq hrec hread
      · exact ih h hnd.2 hef

theorem aggStep_data_ne {parse : String → String → Except PyErr Record}
    {c : Dataset} {st st2 : AggSt} {e : ScanEntry} {g q : String}
    (h : aggStep parse c st e = .ok st2) (hq : q ≠ entryPath e) :
    lookup2 st2.data g q = lookup2 st.data g q := by
  simp only [aggStep] at h
  split at h
  · cases h; rfl
  · split at h
    · cases h
      simp only []
      split
      · exact lookup2_dataInsert_ne _ _ hq
      · rfl
    · split at h
      · cases h; rfl
      · split at h
        · exact absurd h (by simp)
        · cases h
          exact lookup2_dataInsert_ne _ _ hq

theorem aggRun_data_ne {parse : String → String → Except PyErr Record}
    {c : Dataset} {st st2 : AggSt} {es : List ScanEntry} {g q : String}
    (h : aggRun parse c st es = .ok st2) (hq : ∀ e ∈ es, entryPath e ≠ q) :
    lookup2 st2.data g q = lookup2 st.data g q := by
  induction es generalizing st with
  | nil => cases h; rfl
  | cons f fs ih =>
    simp only [aggRun] at h
    split at h
    · exact absurd h (by simp)
    · rename_i st1 heq
      rw [ih h (fun e he => hq e (List.mem_cons_of_mem _ he)),
        aggStep_data_ne heq (fun hc => hq f (List.mem_cons_self _ _) hc.symm)]

theorem aggStep_parsed_subset {parse : String → String → Except PyErr Record}
    {c : Dataset} {st st2 : AggSt} {e : ScanEntry} {q : String}
    (h : aggStep parse c st e = .ok st2) (hq1 : q ∉ st.parsed)
    (hq2 : q ≠ entryPath e) : q ∉ st2.parsed := by
  simp only [aggStep] at h
  split at h
  · cases h; exact hq1
  · split at h
    · cases h; exact hq1
    · split at h
      · cases h
        simp only [List.mem_append, List.mem_singleton]
        rintro (hm | hm)
        · exact hq1 hm
        · exact hq2 hm
      · split at h
        · exact absurd h (by simp)
        · cases h
          simp only [List.mem_append, List.mem_singleton]
          rintro (hm | hm)
          · exact hq1 hm
          · exact hq2 hm

theorem aggStep_parsed_hit {parse : String → String → Except PyErr Record}
    {c : Dataset} {st st2 : AggSt} {e : ScanEntry}
    (h : aggStep parse c st e = .ok st2)
    (hhit : lookupA st.log (entryPath e) = some e.mtime) :
    st2.parsed = st.parsed := by
  simp only [aggStep] at h
  split at h
  · cases h; rfl
  · rw [if_pos hhit] at h
    cases h; rfl

theorem aggRun_parsed_other {parse : String → String → Except PyErr Record}
    {c : Dataset} {st st2 : AggSt} {es : List ScanEntry} {q : String}
    (h : aggRun parse c st es = .ok st2) (hq1 : q ∉ st.parsed)
    (hq2 : ∀ e ∈ es, entryPath e ≠ q) : q ∉ st2.parsed := by
  induction es generalizing st with
  | nil => cases h; exact hq1
  | cons f fs ih =>
    simp only [aggRun] at h
    split at h
    · exact absurd h (by simp)
    · rename_i st1 heq
      exact ih h
        (aggStep_parsed_subset heq hq1 (fun hc => hq2 f (List.mem_cons_self _ _) hc.symm))
        (fun e he => hq2 e (List.mem_cons_of_mem _ he))

theorem aggStep_no_increment {parse : String → String → Except PyErr Record}
    {c : Dataset} {st st2 : AggSt} {e : ScanEntry}
    (h : aggStep parse c st e = .ok st2) (hc : st2.newCount = st.newCount) :
    st2.log = st.log ∧
      ((classify e.dirParts).isSome →
        lookupA st.log (entryPath e) = some e.mtime) := by
  simp only [aggStep] at h
  split at h
  · rename_i heq
    cases h
    exact ⟨rfl, fun hs => by rw [heq] at hs; simp at hs⟩
  · rename_i g ex heq
    split at h
    · rename_i hhit
      cases h
      exact ⟨rfl, fun _ => hhit⟩
    · split at h
      · cases h
        simp at hc
      · split at h
        · exact absurd h (by simp)
        · cases h
          simp at hc

theorem aggRun_no_increment {parse : String → String → Except PyErr Record}
    {c : Dataset} {st st2 : AggSt} {es : List ScanEntry}
    (h : aggRun parse c st es = .ok st2) (hc : st2.newCount = st.newCount) :
    st2.log = st.log ∧
      (∀ e ∈ es, (classify e.dirParts).isSome →
        lookupA st.log (entryPath e) = some e.mtime) := by
  induction es generalizing st with
  | nil => cases h; exact ⟨rfl, by simp⟩
  | cons f fs ih =>
    simp only [aggRun] at h
    split at h
    · exact absurd h (by simp)
    · rename_i st1 heq
      have h1 : st1.newCount = st.newCount :=
        Nat.le_antisymm (hc ▸ aggRun_count_mono h) (aggStep_count_mono heq)
      obtain ⟨hlog1, hhit1⟩ := aggStep_no_increment heq h1
      obtain ⟨hlog2, hhit2⟩ := ih h (by rw [hc, h1])
      refine ⟨by rw [hlog2, hlog1], fun e he hs => ?_⟩
      rcases List.mem_cons.mp he with hef | hef
      · subst hef
        exact hhit1 hs
      · rw [← hlog1]
        exact hhit2 e hef hs

theorem aggRun_all_hits (parse : String → String → Except PyErr Record)
    (c : Dataset) {es : List ScanEntry} :
    ∀ (st : AggSt),
      (∀ e ∈ es, (classify e.dirParts).isSome →
        lookupA st.log (entryPath e) = some e.mtime) →
      ∃ st2, aggRun parse c st es = .ok st2 ∧ st2.log = st.log ∧
        st2.newCount = st.newCount ∧ st2.parsed = st.parsed := by
  induction es with
  | nil => exact fun st _ => ⟨st, rfl, rfl, rfl, rfl⟩
  | cons f fs ih =>
    intro st hyp
    cases hc : classify f.dirParts with
    | none =>
      have hstep : aggStep parse c st f = .ok st := by
        simp [aggStep, hc]
      obtain ⟨st2, hrun, hl, hn, hp⟩ :=
        ih st (fun e he hs => hyp e (List.mem_cons_of_mem _ he) hs)
      exact ⟨st2, by simp only [aggRun, hstep]; exact hrun, hl, hn, hp⟩
    | some gx =>
      obtain ⟨g, ex⟩ := gx
      have hhit : lookupA st.log (entryPath f) = some f.mtime :=
        hyp f (List.mem_cons_self _ _) (by rw [hc]; rfl)
      set st1 : AggSt :=
        { st with
          data := match lookup2 c g (entryPath f) with
            | some r => dataInsert st.data g (entryPath f) r
            | none => st.data,
          skipped := st.skipped + 1 } with hst1
      have hstep : aggStep parse c st f = .ok st1 := by
        simp only [aggStep, hc, hhit, if_pos]
      have hyp1 : ∀ e ∈ fs, (classify e.dirParts).isSome →
          lookupA st1.log (entryPath e) = some e.mtime := by
        intro e he hs
        exact hyp e (List.mem_cons_of_mem _ he) hs
      obtain ⟨st2, hrun, hl, hn, hp⟩ := ih st1 hyp1
      exact ⟨st2, by simp only [aggRun, hstep]; exact hrun, hl, hn, hp⟩

theorem aggRun_append {parse : String → String → Except PyErr Record}
    {c : Dataset} (st : AggSt) (xs ys : List ScanEntry) :
    aggRun parse c st (xs ++ ys) =
      match aggRun parse c st xs with
      | .error er => .error er
      | .ok st1 => aggRun parse c st1 ys := by
  induction xs generalizing st with
  | nil => simp [aggRun]
  | cons f fs ih =>
    simp only [List.cons_append, aggRun]
    cases aggStep parse c st f with
    | error er => rfl
    | ok st1 => exact ih st1

theorem aggRun_hit_not_parsed {parse : String → String → Except PyErr Record}
    {c : Dataset} {st st2 : AggSt} {es : List ScanEntry} {e : ScanEntry}
    (h : aggRun parse c st es = .ok st2) (hnd : (es.map entryPath).Nodup)
    (he : e ∈ es) (hhit : lookupA st.log (entryPath e) = some e.mtime)
    (hnp : entryPath e ∉ st.parsed) : entryPath e ∉ st2.parsed := by
  induction es generalizing st with
  | nil => simp at he
  | cons f fs ih =>
    simp only [aggRun] at h
    split at h
    · exact absurd h (by simp)
    · rename_i st1 heq
      simp only [List.map_cons, List.nodup_cons] at hnd
      rcases List.mem_cons.mp he with hef | hef
      · subst hef
        have hp1 : st1.parsed = st.parsed := aggStep_parsed_hit heq hhit
        exact aggRun_parsed_other h (hp1 ▸ hnp)
          (fun e' he' hpe => hnd.1 (List.mem_map.mpr ⟨e', he', hpe⟩))
      · have hne : entryPath f ≠ entryPath e := by
          intro hpe
          exact hnd.1 (hpe ▸ List.mem_map.mpr ⟨e, hef, rfl⟩)
        exact ih h hnd.2 hef
          (by rw [aggStep_log_ne heq (Ne.symm hne)]; exact hhit)
          (aggStep_parsed_subset heq hnp (Ne.symm hne))

theorem aggRun_hit_reused {parse : String → String → Except PyErr Record}
    {c : Dataset} {st st2 : AggSt} {es : List ScanEntry} {e : ScanEntry}
    {g ex : String} {r : Record}
    (h : aggRun parse c st es = .ok st2) (hnd : (es.map entryPath).Nodup)
    (he : e ∈ es) (hc : classify e.dirParts = some (g, ex))
    (hhit : lookupA st.log (entryPath e) = some e.mtime)
    (hcache : lookup2 c g (entryPath e) = some r) :
    lookup2 st2.data g (entryPath e) = some r := by
  induction es generalizing st with
  | nil => simp at he
  | cons f fs ih =>
    simp only [aggRun] at h
    split at h
    · exact absurd h (by simp)
    · rename_i st1 heq
      simp only [List.map_cons, List.nodup_cons] at hnd
      rcases List.mem_cons.mp he with hef | hef
      · subst hef
        have hstep : st1.data = dataInsert st.data g (entryPath e) r := by
          simp only [aggStep, hc, hhit, if_pos, hcache] at heq
          cases heq
          rfl
        rw [aggRun_data_ne h
          (fun e' he' hpe => hnd.1 (List.mem_map.mpr ⟨e', he', hpe⟩)),
          hstep, lookup2_dataInsert_self]
      · have hne : entryPath f ≠ entryPath e := by
          intro hpe
          exact hnd.1 (hpe ▸ List.mem_map.mpr ⟨e, hef, rfl⟩)
        exact ih h hnd.2 hef
          (by rw [aggStep_log_ne heq (Ne.symm hne)]; exact hhit)

theorem aggRun_hit_dropped {parse : String → String → Except PyErr Record}
    {c : Dataset} {st st2 : AggSt} {es : List ScanEntry} {e : ScanEntry}
    {g ex : String}
    (h : aggRun parse c st es = .ok st2) (hnd : (es.map entryPath).Nodup)
    (he : e ∈ es) (hc : classify e.dirParts = some (g, ex))
    (hhit : lookupA st.log (entryPath e) = some e.mtime)
    (hcache : lookup2 c g (entryPath e) = none)
    (hdata : lookup2 st.data g (entryPath e) = none) :
    lookup2 st2.data g (entryPath e) = none := by
  induction es generalizing st with
  | nil => cases h; exact hdata
  | cons f fs ih =>
    simp only [aggRun] at h
    split at h
    · exact absurd h (by simp)
    · rename_i st1 heq
      simp only [List.map_cons, List.nodup_cons] at hnd
      rcases List.mem_cons.mp he with hef | hef
      · subst hef
        have hstep : st1.data = st.data := by
          simp only [aggStep, hc, hhit, if_pos, hcache] at heq
          cases heq
          rfl
        rw [aggRun_data_ne h
          (fun e' he' hpe => hnd.1 (List.mem_map.mpr ⟨e', he', hpe⟩)),
          hstep]
        exact hdata
      · have hne : entryPath f ≠ entryPath e := by
          intro hpe
          exact hnd.1 (hpe ▸ List.mem_map.mpr ⟨e, hef, rfl⟩)
        exact ih h hnd.2 hef
          (by rw [aggStep_log_ne heq (Ne.symm hne)]; exact hhit)
          (by rw [aggStep_data_ne heq (Ne.symm hne)]; exact hdata)

theorem aggRun_fresh_appended {parse : String → String → Except PyErr Record}
    {c : Dataset} {st st2 : AggSt} {es : List ScanEntry} {e : ScanEntry}
    {g ex : String} {txt : String} {m : Record}
    (h : aggRun parse c st es = .ok st2) (hnd : (es.map entryPath).Nodup)
    (he : e ∈ es) (hc : classify e.dirParts = some (g, ex))
    (hmiss : lookupA st.log (entryPath e) ≠ some e.mtime)
    (hread : e.content = some txt) (hparse : parse e.filename txt = .ok m) :
    lookup2 st2.data g (entryPath e) =
      some (setAssoc m "Experiment" (some (PyVal.str ex))) := by
  induction es generalizing st with
  | nil => simp at he
  | cons f fs ih =>
    simp only [aggRun] at h
    split at h
    · exact absurd h (by simp)
    · rename_i st1 heq
      simp only [List.map_cons, List.nodup_cons] at hnd
      rcases List.mem_cons.mp he with hef | hef
      · subst hef
        have hstep : st1.data =
            dataInsert st.data g (entryPath e)
              (setAssoc m "Experiment" (some (PyVal.str ex))) := by
          simp only [aggStep, hc, if_neg hmiss, hread, hparse] at heq
          cases heq
          rfl
        rw [aggRun_data_ne h
          (fun e' he' hpe => hnd.1 (List.mem_map.mpr ⟨e', he', hpe⟩)),
          hstep, lookup2_dataInsert_self]
      · have hne : entryPath f ≠ entryPath e := by
          intro hpe
          exact hnd.1 (hpe ▸ List.mem_map.mpr ⟨e, hef, rfl⟩)
        exact ih h hnd.2 hef
          (by rw [aggStep_log_ne heq (Ne.symm hne)]; exact hmiss)

/-! ### Lemmas for the report-preservation claims -/

theorem lookupA_some_mem {α : Type} {m : List (String × α)} {k : String} {v : α}
    (h : lookupA m k = some v) : k ∈ m.map Prod.fst := by
  induction m with
  | nil => simp [lookupA] at h
  | cons kv r ih =>
    obtain ⟨k1, v1⟩ := kv
    by_cases h1 : k1 = k
    · subst h1
      simp
    · simp only [lookupA, h1, if_false] at h
      simp [ih h]

theorem isPrefixOf_append_self {l t : List Char} :
    List.isPrefixOf l (l ++ t) = true := by
  induction l with
  | nil => simp [List.isPrefixOf]
  | cons c cs ih => simp [List.isPrefixOf, ih]

theorem startsWithRawB_rawName (g : String) : startsWithRawB (rawName g) = true := by
  obtain ⟨lg⟩ := g
  show List.isPrefixOf "raw_".toList (String.mk ("raw_".data ++ lg)).toList = true
  exact isPrefixOf_append_self

theorem rawName_inj {a b : String} (h : rawName a = rawName b) : a = b := by
  obtain ⟨la⟩ := a
  obtain ⟨lb⟩ := b
  have hd : "raw_".data ++ la = "raw_".data ++ lb := congrArg String.data h
  have : la = lb := List.append_cancel_left hd
  rw [this]

theorem lookupA_filter_of_mem {α : Type} {m : List (String × α)} {k : String}
    {v : α} (p : String × α → Bool) (hmem : (k, v) ∈ m)
    (hnd : (m.map Prod.fst).Nodup) (hp : p (k, v) = true) :
    lookupA (m.filter p) k = some v := by
  induction m with
  | nil => simp at hmem
  | cons kv r ih =>
    obtain ⟨k1, v1⟩ := kv
    simp only [List.map_cons, List.nodup_cons] at hnd
    rcases List.mem_cons.mp hmem with hh | hh
    · cases hh
      rw [List.filter_cons_of_pos hp]
      simp [lookupA]
    · have hk : k1 ≠ k := by
        intro he
        subst he
        exact hnd.1 (List.mem_map.mpr ⟨(k1, v), hh, rfl⟩)
      by_cases hp1 : p (k1, v1) = true
      · rw [List.filter_cons_of_pos hp1]
        simp only [lookupA, hk, if_false]
        exact ih hh hnd.2
      · rw [List.filter_cons_of_neg (by simp [hp1])]
        exact ih hh hnd.2

theorem lookupA_preserved_rawName_none (ob : Book) (g : String) :
    lookupA (ob.filter (fun s => !(startsWithRawB s.1))) (rawName g) = none := by
  apply lookupA_eq_none_of_not_mem
  intro kv hkv he
  have hmem := (List.mem_filter.mp hkv).2
  rw [he, startsWithRawB_rawName] at hmem
  simp at hmem

theorem lookupA_eraseKey_ne {α : Type} (m : List (String × α)) {r q : String}
    (h : q ≠ r) : lookupA (eraseKey m r) q = lookupA m q := by
  induction m with
  | nil => rfl
  | cons kv rest ih =>
    obtain ⟨k1, v1⟩ := kv
    by_cases h1 : k1 = r
    · subst h1
      simp [eraseKey, lookupA, Ne.symm h]
    · by_cases h2 : k1 = q
      · subst h2
        simp [eraseKey, h1, lookupA, h]
      · simp [eraseKey, h1, lookupA, h2, ih]

theorem eraseKey_sublist {α : Type} (m : List (String × α)) (r : String) :
    List.Sublist (eraseKey m r) m := by
  induction m with
  | nil => exact List.Sublist.refl _
  | cons kv rest ih =>
    obtain ⟨k1, v1⟩ := kv
    by_cases h1 : k1 = r
    · simp only [eraseKey, h1, if_pos rfl]
      exact List.Sublist.cons _ (List.Sublist.refl _)
    · simp only [eraseKey, h1, if_false]
      exact List.Sublist.cons₂ _ ih

theorem not_mem_keys_eraseKey {α : Type} {m : List (String × α)} {r : String}
    (hnd : (m.map Prod.fst).Nodup) : r ∉ (eraseKey m r).map Prod.fst := by
  induction m with
  | nil => simp [eraseKey]
  | cons kv rest ih =>
    obtain ⟨k1, v1⟩ := kv
    simp only [List.map_cons, List.nodup_cons] at hnd
    by_cases h1 : k1 = r
    · subst h1
      simp only [eraseKey, if_pos rfl]
      exact hnd.1
    · simp only [eraseKey, h1, if_false, List.map_cons, List.mem_cons]
      rintro (he | he)
      · exact h1 he.symm
      · exact ih hnd.2 he

theorem nodup_keys_eraseKey {α : Type} {m : List (String × α)} (r : String)
    (hnd : (m.map Prod.fst).Nodup) : ((eraseKey m r).map Prod.fst).Nodup :=
  ((eraseKey_sublist m r).map Prod.fst).nodup hnd

theorem nodup_keys_step {bk : Book} {r : String} (sh : Sheet)
    (hnd : (bk.map Prod.fst).Nodup) :
    (((eraseKey bk r) ++ [(r, sh)]).map Prod.fst).Nodup := by
  rw [List.map_append]
  refine List.Nodup.append (nodup_keys_eraseKey r hnd) (by simp) ?_
  intro a ha hb
  simp only [List.map_cons, List.map_nil, List.mem_singleton] at hb
  subst hb
  exact not_mem_keys_eraseKey hnd ha

theorem lookupA_step_self {bk : Book} {r : String} (sh : Sheet)
    (hnd : (bk.map Prod.fst).Nodup) :
    lookupA (eraseKey bk r ++ [(r, sh)]) r = some sh := by
  have hl : lookupA (eraseKey bk r) r = none := by
    apply lookupA_eq_none_of_not_mem
    intro kv hkv he
    exact not_mem_keys_eraseKey hnd (he ▸ List.mem_map.mpr ⟨kv, hkv, rfl⟩)
  rw [lookupA_append_none _ hl]
  simp [lookupA]

theorem lookupA_step_ne {bk : Book} {r nm : String} (sh : Sheet) (h : nm ≠ r) :
    lookupA (eraseKey bk r ++ [(r, sh)]) nm = lookupA bk nm := by
  cases hl : lookupA (eraseKey bk r) nm with
  | none =>
    rw [lookupA_append_none _ hl, ← lookupA_eraseKey_ne bk h, hl]
    simp [lookupA, Ne.symm h]
  | some v =>
    rw [lookupA_append_some hl, ← lookupA_eraseKey_ne bk h, hl]

theorem mem_insertStr {x a : String} {l : List String} :
    a ∈ insertStr x l ↔ a = x ∨ a ∈ l := by
  induction l with
  | nil => simp [insertStr]
  | cons y ys ih =>
    cases hb : strLt x y with
    | true => simp [insertStr, hb]
    | false =>
      rw [show insertStr x (y :: ys) = y :: insertStr x ys from by
        simp [insertStr, hb]]
      simp only [List.mem_cons, ih]
      tauto

theorem mem_sortStrings {a : String} {l : List String} :
    a ∈ sortStrings l ↔ a ∈ l := by
  induction l with
  | nil => simp [sortStrings]
  | cons x xs ih =>
    simp [sortStrings, mem_insertStr, ih]

theorem nodup_insertStr {x : String} {l : List String} (hx : x ∉ l)
    (hnd : l.Nodup) : (insertStr x l).Nodup := by
  induction l with
  | nil => simp [insertStr]
  | cons y ys ih =>
    simp only [List.nodup_cons] at hnd
    cases hb : strLt x y with
    | true =>
      rw [show insertStr x (y :: ys) = x :: y :: ys from by simp [insertStr, hb]]
      exact List.nodup_cons.mpr ⟨hx, List.nodup_cons.mpr ⟨hnd.1, hnd.2⟩⟩
    | false =>
      rw [show insertStr x (y :: ys) = y :: insertStr x ys from by
        simp [insertStr, hb]]
      refine List.nodup_cons.mpr
        ⟨?_, ih (fun hm => hx (List.mem_cons_of_mem _ hm)) hnd.2⟩
      intro hm
      rcases mem_insertStr.mp hm with he | he
      · refine hx ?_
        rw [← he]
        exact List.mem_cons_self _ _
      · exact hnd.1 he

theorem nodup_sortStrings {l : List String} (hnd : l.Nodup) :
    (sortStrings l).Nodup := by
  induction l with
  | nil => simp [sortStrings]
  | cons x xs ih =>
    simp only [List.nodup_cons] at hnd
    exact nodup_insertStr (fun hm => hnd.1 (mem_sortStrings.mp hm)) (ih hnd.2)

theorem buildRaws_lookup {ds : Dataset} {gs : List String} {g : String}
    {recs : List (String × Record)} {sh : Sheet} {raws : Book}
    (hb : buildRaws ds gs = .ok raws) (hgs : gs.Nodup) (hg : g ∈ gs)
    (hrecs : lookupA ds g = some recs) (hne : recs.isEmpty = false)
    (hsh : renderRawSheetNew g (recs.map Prod.snd) = .ok sh) :
    lookupA raws (rawName g) = some sh := by
  induction gs generalizing raws with
  | nil => simp at hg
  | cons g1 gs1 ih =>
    simp only [buildRaws] at hb
    simp only [List.nodup_cons] at hgs
    rcases List.mem_cons.mp hg with hg1 | hg1
    · subst hg1
      simp only [hrecs] at hb
      simp only [hne] at hb
      simp only [Bool.false_eq_true, if_false] at hb
      simp only [hsh] at hb
      split at hb
      · exact absurd hb (by simp)
      · rename_i rest hrest
        cases hb
        simp [lookupA]
    · have hgne : g1 ≠ g := fun he => hgs.1 (he ▸ hg1)
      cases hl : lookupA ds g1 with
      | none =>
        simp only [hl] at hb
        exact ih hb hgs.2 hg1
      | some recs1 =>
        simp only [hl] at hb
        cases hne1 : recs1.isEmpty with
        | true =>
          simp only [hne1] at hb
          exact ih hb hgs.2 hg1
        | false =>
          simp only [hne1] at hb
          simp only [Bool.false_eq_true, if_false] at hb
          cases hr : renderRawSheetNew g1 (recs1.map Prod.snd) with
          | error er =>
            simp only [hr] at hb
            exact absurd hb (by simp)
          | ok sh1 =>
            simp only [hr] at hb
            split at hb
            · exact absurd hb (by simp)
            · rename_i rest hrest
              cases hb
              have hnm : rawName g1 ≠ rawName g := fun he => hgne (rawName_inj he)
              simp only [lookupA, hnm, if_false]
              exact ih hrest hgs.2 hg1

theorem buildOldGo_lookup_ne {ds : Dataset} {bk bk2 : Book} {gs : List String}
    {nm : String} (hb : buildOldGo ds bk gs = .ok bk2)
    (hq : ∀ g ∈ gs, rawName g ≠ nm) : lookupA bk2 nm = lookupA bk nm := by
  induction gs generalizing bk with
  | nil => cases hb; rfl
  | cons g1 gs1 ih =>
    simp only [buildOldGo] at hb
    cases hl : lookupA ds g1 with
    | none =>
      simp only [hl] at hb
      exact ih hb (fun g hg => hq g (List.mem_cons_of_mem _ hg))
    | some recs1 =>
      simp only [hl] at hb
      cases hne1 : recs1.isEmpty with
      | true =>
        simp only [hne1] at hb
        exact ih hb (fun g hg => hq g (List.mem_cons_of_mem _ hg))
      | false =>
        simp only [hne1] at hb
        simp only [Bool.false_eq_true, if_false] at hb
        cases hr : renderRawSheetOld g1 (recs1.map Prod.snd) with
        | error er =>
          simp only [hr] at hb
          exact absurd hb (by simp)
        | ok sh1 =>
          simp only [hr] at hb
          rw [ih hb (fun g hg => hq g (List.mem_cons_of_mem _ hg))]
          exact lookupA_step_ne sh1 (Ne.symm (hq g1 (List.mem_cons_self _ _)))

theorem buildOldGo_nodup {ds : Dataset} {bk bk2 : Book} {gs : List String}
    (hb : buildOldGo ds bk gs = .ok bk2) (hnd : (bk.map Prod.fst).Nodup) :
    (bk2.map Prod.fst).Nodup := by
  induction gs generalizing bk with
  | nil => cases hb; exact hnd
  | cons g1 gs1 ih =>
    simp only [buildOldGo] at hb
    cases hl : lookupA ds g1 with
    | none =>
      simp only [hl] at hb
      exact ih hb hnd
    | some recs1 =>
      simp only [hl] at hb
      cases hne1 : recs1.isEmpty with
      | true =>
        simp only [hne1] at hb
        exact ih hb hnd
      | false =>
        simp only [hne1] at hb
        simp only [Bool.false_eq_true, if_false] at hb
        cases hr : renderRawSheetOld g1 (recs1.map Prod.snd) with
        | error er =>
          simp only [hr] at hb
          exact absurd hb (by simp)
        | ok sh1 =>
          simp only [hr] at hb
          exact ih hb (nodup_keys_step sh1 hnd)

theorem buildOldGo_raw {ds : Dataset} {bk bk2 : Book} {gs : List String}
    {g : String} {recs : List (String × Record)} {sh : Sheet}
    (hb : buildOldGo ds bk gs = .ok bk2) (hndk : (bk.map Prod.fst).Nodup)
    (hgs : gs.Nodup) (hg : g ∈ gs) (hrecs : lookupA ds g = some recs)
    (hne : recs.isEmpty = false)
    (hsh : renderRawSheetOld g (recs.map Prod.snd) = .ok sh) :
    lookupA bk2 (rawName g) = some sh := by
  induction gs generalizing bk with
  | nil => simp at hg
  | cons g1 gs1 ih =>
    simp only [buildOldGo] at hb
    simp only [List.nodup_cons] at hgs
    rcases List.mem_cons.mp hg with hg1 | hg1
    · subst hg1
      simp only [hrecs] at hb
      simp only [hne] at hb
      simp only [Bool.false_eq_true, if_false] at hb
      simp only [hsh] at hb
      rw [buildOldGo_lookup_ne hb
        (fun g' hg' he => hgs.1 (by rw [← rawName_inj he]; exact hg'))]
      exact lookupA_step_self sh hndk
    · have hgne : g1 ≠ g := fun he => hgs.1 (he ▸ hg1)
      cases hl : lookupA ds g1 with
      | none =>
        simp only [hl] at hb
        exact ih hb hndk hgs.2 hg1
      | some recs1 =>
        simp only [hl] at hb
        cases hne1 : recs1.isEmpty with
        | true =>
          simp only [hne1] at hb
          exact ih hb hndk hgs.2 hg1
        | false =>
          simp only [hne1] at hb
          simp only [Bool.false_eq_true, if_false] at hb
          cases hr : renderRawSheetOld g1 (recs1.map Prod.snd) with
          | error er =>
            simp only [hr] at hb
            exact absurd hb (by simp)
          | ok sh1 =>
            simp only [hr] at hb
            exact ih hb (nodup_keys_step sh1 hndk) hgs.2 hg1

/-! ### Claim theorems -/

/-- C5: Extraction correctness and totality on literal examples.  Text
containing the line `CPU 0 cumulative IPC: 1.234` yields a record whose
IPC field is the float 1.234; text containing
`LLC TOTAL ACCESS: 100 HIT: 80 MISS: 20 ... MPKI: 4.5` yields LLC total
access/hit/miss/MPKI of 100/80/20/4.5; and text containing neither
pattern (including empty text) yields a record with both field sets
absent, raising no exception. -/
theorem c5_extraction_literal_examples :
    fieldOf (parseChampsimOld "f.txt" "foo\nCPU 0 cumulative IPC: 1.234\nbar")
        "IPC" = some (some (PyVal.float (mkRat 1234 1000)))
    ∧ (fieldOf (parseChampsimOld "f.txt"
          "LLC TOTAL ACCESS: 100 HIT: 80 MISS: 20 ... MPKI: 4.5")
        "LLC Total Access" = some (some (PyVal.int 100))
      ∧ fieldOf (parseChampsimOld "f.txt"
          "LLC TOTAL ACCESS: 100 HIT: 80 MISS: 20 ... MPKI: 4.5")
        "LLC Total Hits" = some (some (PyVal.int 80))
      ∧ fieldOf (parseChampsimOld "f.txt"
          "LLC TOTAL ACCESS: 100 HIT: 80 MISS: 20 ... MPKI: 4.5")
        "LLC Total Misses" = some (some (PyVal.int 20))
      ∧ fieldOf (parseChampsimOld "f.txt"
          "LLC TOTAL ACCESS: 100 HIT: 80 MISS: 20 ... MPKI: 4.5")
        "LLC Total MPKI" = some (some (PyVal.float (mkRat 45 10))))
    ∧ parseChampsimOld "f.txt" "" = .ok (initOld "f.txt")
    ∧ (parseChampsimOld "f.txt" "no statistics in this text" =
        .ok (initOld "f.txt")
      ∧ fieldOf (parseChampsimOld "f.txt" "no statistics in this text") "IPC"
          = some none
      ∧ fieldOf (parseChampsimOld "f.txt" "no statistics in this text")
          "LLC Total Access" = some none
      ∧ fieldOf (parseChampsimOld "f.txt" "no statistics in this text")
          "LLC Total MPKI" = some none) := by
  decide

/-- C4 (counterexample): the claim says the extractor never raises on
malformed numeric text inside a structurally matched pattern.  On the
text `CPU 0 cumulative IPC: 1.2.3` the IPC pattern structurally matches
with the capture `1.2.3`, and `float` raises an uncaught `ValueError`
that aborts the whole record. -/
theorem c4_counterexample :
    searchFrom ipcToks ("CPU 0 cumulative IPC: 1.2.3").toList = some ["1.2.3"]
    ∧ parseChampsimOld "f.txt" "CPU 0 cumulative IPC: 1.2.3"
        = .error PyErr.valueError := by
  decide

/-- C4 (amended): only the three prefetch-accuracy rules of
`collect_data_new.py` tolerate malformed numeric captures — they catch
the `ValueError` and store the raw captured text (the field is not left
absent) while the rest of the record is returned; every other numeric
rule, in both variants, propagates the `ValueError` and aborts the
record. -/
theorem c4_amended_accuracy_only :
    (fieldOf (parseChampsimNew "f.txt"
        "L1D USEFUL LOAD PREFETCHES: 7 ( 50%) ACCURACY: 1.2.3")
        "L1D Prefetch Accuracy" = some (some (PyVal.str "1.2.3"))
      ∧ (parseChampsimNew "f.txt"
          "L1D USEFUL LOAD PREFETCHES: 7 ( 50%) ACCURACY: 1.2.3").isOk = true)
    ∧ parseChampsimOld "f.txt" "CPU 0 cumulative IPC: 1.2.3"
        = .error PyErr.valueError
    ∧ parseChampsimNew "f.txt" "CPU 0 cumulative IPC: 1.2.3"
        = .error PyErr.valueError
    ∧ parseChampsimOld "f.txt" "LLC AVERAGE MISS LATENCY: .."
        = .error PyErr.valueError := by
  decide

/-- C7: Natural ordering of experiments.  The sort key comparator orders
two keys that share the textual parts by the numeric value of the
embedded number (first conjunct, for all numbers), the key of `expN`
splits the numeric substring out as an int, and the experiment order used
by the report renderer sorts `exp1, exp10, exp2` into `exp1, exp2, exp10`
(not the lexicographic order, which `sortStrings` exhibits). -/
theorem c7_natural_ordering :
    (∀ a b : Nat,
      pyListLt [PyVal.str "exp", PyVal.int (Int.ofNat a), PyVal.str ""]
          [PyVal.str "exp", PyVal.int (Int.ofNat b), PyVal.str ""]
        = .ok (decide (a < b)))
    ∧ naturalSortKey "exp1" = [PyVal.str "exp", PyVal.int 1, PyVal.str ""]
    ∧ naturalSortKey "exp2" = [PyVal.str "exp", PyVal.int 2, PyVal.str ""]
    ∧ naturalSortKey "exp10" = [PyVal.str "exp", PyVal.int 10, PyVal.str ""]
    ∧ pySortByKey naturalSortKey ["exp1", "exp10", "exp2"]
        = .ok ["exp1", "exp2", "exp10"]
    ∧ pySortByKey naturalSortKey
        (dedupFirst (([[("Experiment", some (PyVal.str "exp1"))],
            [("Experiment", some (PyVal.str "exp10"))],
            [("Experiment", some (PyVal.str "exp2"))]] : List Record).map getExp))
        = .ok ["exp1", "exp2", "exp10"]
    ∧ sortStrings ["exp1", "exp10", "exp2"] = ["exp1", "exp10", "exp2"] := by
  refine ⟨?_, by decide, by decide, by decide, by decide, by decide, by decide⟩
  intro a b
  by_cases h : a = b
  · subst h
    simp [pyListLt, pyValEq, Nat.lt_irrefl]
  · have hi : Int.ofNat a ≠ Int.ofNat b := fun he => h (Int.ofNat.inj he)
    simp [pyListLt, pyValEq, pyValLt, hi, h, Int.ofNat_lt]

/-- C10: on every run of either variant, the output directory is created
(with missing parents, `os.makedirs(..., exist_ok=True)`) as the very
first filesystem effect, before the input-root existence check — so even
a run that fails because the results root is missing, and otherwise
writes nothing, creates the output directory. -/
theorem c10_outdir_created_before_root_check :
    (∀ (re : Bool) (scan : List ScanEntry) (sOk : Bool) (ps : PState),
      (runOld re scan sOk ps).trace.head? = some (Eff.mkdirs outDirOld)
      ∧ (runNew re scan sOk ps).trace.head? = some (Eff.mkdirs outDirNew))
    ∧ (∀ (scan : List ScanEntry) (sOk : Bool) (ps : PState),
      (runOld false scan sOk ps).trace = [Eff.mkdirs outDirOld]
      ∧ (runNew false scan sOk ps).trace = [Eff.mkdirs outDirNew]) := by
  constructor
  · intro re scan sOk ps
    constructor
    · unfold runOld
      repeat' split
      all_goals rfl
    · unfold runNew runNewFinish
      repeat' split
      all_goals rfl
  · intro scan sOk ps
    constructor
    · unfold runOld
      simp
    · unfold runNew
      simp

/-- C8 (counterexample): with the results root missing, the run prints
exactly the missing-directory error but `main` returns normally, so the
process completes with exit status 0, not the non-zero status the claim
requires. -/
theorem c8_counterexample :
    (runOld false [] true ⟨[], [], ReportFile.absent⟩).errs = [msgMissingRoot]
    ∧ (runOld false [] true ⟨[], [], ReportFile.absent⟩).code = 0 := by
  decide

/-- C8 (amended): when the input results root is missing, the run prints
a single clear error message, writes nothing beyond creating the output
directory, and leaves the persisted state untouched; when persisting the
new report fails, the run prints a single error, writes neither report
nor cache files, and leaves the persisted state untouched — but in both
cases `main` returns normally and the process completes with exit
status 0 (not non-zero as the claim stated). -/
theorem c8_amended_fatal_paths :
    (∀ (scan : List ScanEntry) (sOk : Bool) (ps : PState),
      runOld false scan sOk ps =
        ⟨ps, 0, 0, [], [Eff.mkdirs outDirOld], [msgMissingRoot], [], 0, false⟩)
    ∧ (∀ (scan : List ScanEntry) (ps : PState),
      (runOld true scan false ps).crashed = false →
        (runOld true scan false ps).pstate = ps
        ∧ (runOld true scan false ps).code = 0
        ∧ ((runOld true scan false ps).errs = []
            ∨ (runOld true scan false ps).errs = [msgExcelFail])
        ∧ ∀ p : String, Eff.saveReport p ∉ (runOld true scan false ps).trace
            ∧ Eff.saveJson p ∉ (runOld true scan false ps).trace) := by
  constructor
  · intro scan sOk ps
    unfold runOld
    simp
  · intro scan ps hcr
    unfold runOld at hcr ⊢
    repeat' split
    all_goals simp_all

/-- Witness for C8 (amended): the write-failure branch at a concrete
input. -/
theorem c8_amended_fatal_paths_witness :
    (runOld true [] false ⟨[], [], ReportFile.absent⟩).pstate
        = ⟨[], [], ReportFile.absent⟩
    ∧ (runOld true [] false ⟨[], [], ReportFile.absent⟩).code = 0
    ∧ ((runOld true [] false ⟨[], [], ReportFile.absent⟩).errs = []
        ∨ (runOld true [] false ⟨[], [], ReportFile.absent⟩).errs = [msgExcelFail])
    ∧ ∀ p : String,
        Eff.saveReport p ∉ (runOld true [] false ⟨[], [], ReportFile.absent⟩).trace
        ∧ Eff.saveJson p ∉ (runOld true [] false ⟨[], [], ReportFile.absent⟩).trace :=
  c8_amended_fatal_paths.2 [] ⟨[], [], ReportFile.absent⟩ (by decide)

/-- C2 (counterexample): a run of `collect_data.py` that reaches report
synthesis saves the workbook directly at the final report path
(`book.save(output_path)`), with no temporary file and no rename — its
whole effect trace is the direct save followed by the cache writes.
This refutes the claim that every run reaching synthesis writes the
workbook to a temporary location and moves it into place. -/
theorem c2_counterexample :
    (runOld true [freshEntry] true ⟨[], [], ReportFile.absent⟩).newCount ≠ 0
    ∧ Eff.saveReport reportPathOld
        ∈ (runOld true [freshEntry] true ⟨[], [], ReportFile.absent⟩).trace
    ∧ (runOld true [freshEntry] true ⟨[], [], ReportFile.absent⟩).trace =
        [Eff.mkdirs outDirOld, Eff.saveReport reportPathOld,
         Eff.saveJson cachePathOld, Eff.saveJson logPathOld] := by
  decide

/-- C2 (amended): atomic replacement holds for `collect_data_new.py`
only: the final report path is never the target of a direct workbook
save (it is only ever the destination of the move from `/tmp`), and
every run either leaves the persisted state untouched or performs the
full sequence — build, save to the temporary path, move onto the final
path, then rewrite the cache files.  `collect_data.py` saves the
workbook directly to the final report path (see the counterexample). -/
theorem c2_amended_atomic_new_variant_only :
    (∀ (re : Bool) (scan : List ScanEntry) (sOk : Bool) (ps : PState),
      Eff.saveReport reportPathNew ∉ (runNew re scan sOk ps).trace)
    ∧ (∀ (re : Bool) (scan : List ScanEntry) (sOk : Bool) (ps : PState),
      (runNew re scan sOk ps).pstate = ps
      ∨ (runNew re scan sOk ps).trace =
          [Eff.mkdirs outDirNew, Eff.saveReport tmpPathNew,
           Eff.move tmpPathNew reportPathNew,
           Eff.saveJson cachePathNew, Eff.saveJson logPathNew])
    ∧ (runNew true [freshEntry] true ⟨[], [], ReportFile.absent⟩).trace =
        [Eff.mkdirs outDirNew, Eff.saveReport tmpPathNew,
         Eff.move tmpPathNew reportPathNew,
         Eff.saveJson cachePathNew, Eff.saveJson logPathNew] := by
  refine ⟨?_, ?_, by decide⟩
  · intro re scan sOk ps
    unfold runNew runNewFinish
    repeat' split
    all_goals simp
    all_goals decide
  · intro re scan sOk ps
    unfold runNew runNewFinish
    repeat' split
    all_goals simp

/-- C3 (counterexample): a scanned, recognized, readable file whose live
mtime matches the processed-files log, but whose record is missing from
the data cache, is counted as skipped and contributes no record to the
dataset — it is silently dropped, contradicting the claim that every
scanned, recognized, readable file lands in its bucket. -/
theorem c3_counterexample :
    classify (⟨["no_pref", "exp1"], "t.txt", 7, some "x"⟩ : ScanEntry).dirParts
        = some ("no_pref", "exp1")
    ∧ (⟨["no_pref", "exp1"], "t.txt", 7, some "x"⟩ : ScanEntry).content.isSome
        = true
    ∧ aggRun parseChampsimOld []
        (initAgg [(entryPath ⟨["no_pref", "exp1"], "t.txt", 7, some "x"⟩, 7)])
        [⟨["no_pref", "exp1"], "t.txt", 7, some "x"⟩]
      = .ok ⟨[(entryPath ⟨["no_pref", "exp1"], "t.txt", 7, some "x"⟩, 7)],
          [], 0, 1, []⟩ := by
  decide

/-- C3 (amended): for every scanned recognized file whose live mtime
equals the logged mtime, the extractor is not invoked; when the data
cache holds a record for that group and path, the cached record is
reused and appended under its bucket, but when the data cache lacks the
record the file is skipped with no record (dropped from this run's
dataset).  Every freshly processed readable file's record — with the
Experiment attached — is appended under its GroupKey bucket. -/
theorem c3_amended_cache_hit_reuse (scan : List ScanEntry)
    (log0 : List (String × Nat)) (cache0 : Dataset) (st2 : AggSt)
    (e : ScanEntry) (g ex : String)
    (hagg : aggRun parseChampsimOld cache0 (initAgg log0) scan = .ok st2)
    (hnd : (scan.map entryPath).Nodup) (he : e ∈ scan)
    (hc : classify e.dirParts = some (g, ex)) :
    (lookupA log0 (entryPath e) = some e.mtime →
      entryPath e ∉ st2.parsed
      ∧ (∀ r, lookup2 cache0 g (entryPath e) = some r →
          lookup2 st2.data g (entryPath e) = some r)
      ∧ (lookup2 cache0 g (entryPath e) = none →
          lookup2 st2.data g (entryPath e) = none))
    ∧ (∀ txt m, lookupA log0 (entryPath e) ≠ some e.mtime →
        e.content = some txt → parseChampsimOld e.filename txt = .ok m →
        lookup2 st2.data g (entryPath e) =
          some (setAssoc m "Experiment" (some (PyVal.str ex)))) := by
  constructor
  · intro hhit
    refine ⟨aggRun_hit_not_parsed hagg hnd he hhit (by simp [initAgg]), ?_, ?_⟩
    · intro r hr
      exact aggRun_hit_reused hagg hnd he hc hhit hr
    · intro hn
      exact aggRun_hit_dropped hagg hnd he hc hhit hn rfl
  · intro txt m hm hr hp
    exact aggRun_fresh_appended hagg hnd he hc hm hr hp

/-- Witness for C3 (amended): on a concrete cache hit, the extractor is
not invoked and the cached record is reused in its bucket. -/
theorem c3_amended_cache_hit_reuse_witness :
    entryPath c3wEntry ∉ c3wSt2.parsed
    ∧ lookup2 c3wSt2.data "no_pref" (entryPath c3wEntry) = some c3wRec := by
  have h := c3_amended_cache_hit_reuse [c3wEntry] c3wLog c3wCache c3wSt2
    c3wEntry "no_pref" "exp1" (by decide) (by decide) (by decide) (by decide)
  exact ⟨(h.1 (by decide)).1, (h.1 (by decide)).2.1 c3wRec (by decide)⟩

/-- C1: Idempotence of a fully cached run.  If the first run of
`collect_data.py` completes without crashing and without a fatal error
(its save succeeding), then a second run over the same scan (no
filesystem changes: same paths, same mtimes, every file readable)
processes zero files, prints the no-op message, performs no filesystem
effect beyond creating the output directory, and leaves the persisted
report and both cache files exactly as the first run left them. -/
theorem c1_idempotence (scan : List ScanEntry) (ps0 : PState) (s2 : Bool)
    (hnd : (scan.map entryPath).Nodup)
    (hread : ∀ e ∈ scan, e.content ≠ none)
    (hcr : (runOld true scan true ps0).crashed = false)
    (herr : (runOld true scan true ps0).errs = []) :
    (runOld true scan s2 (runOld true scan true ps0).pstate).newCount = 0
    ∧ (runOld true scan s2 (runOld true scan true ps0).pstate).pstate
        = (runOld true scan true ps0).pstate
    ∧ (runOld true scan s2 (runOld true scan true ps0).pstate).trace
        = [Eff.mkdirs outDirOld]
    ∧ (runOld true scan s2 (runOld true scan true ps0).pstate).infos
        = [msgUpToDate] := by
  cases hagg : aggRun parseChampsimOld ps0.cacheF (initAgg ps0.logF) scan with
  | error er =>
    have hx : (runOld true scan true ps0).crashed = true := by
      simp [runOld, hagg]
    rw [hx] at hcr
    simp at hcr
  | ok st =>
    by_cases hz : st.newCount = 0
    · have hr1 : runOld true scan true ps0 =
          ⟨ps0, 0, st.skipped, st.parsed, [Eff.mkdirs outDirOld], [],
            [msgUpToDate], 0, false⟩ := by
        simp [runOld, hagg, hz]
      obtain ⟨hlog, hhits⟩ := aggRun_no_increment hagg (by rw [hz]; rfl)
      obtain ⟨st2, hrun2, hl2, hn2, hp2⟩ :=
        aggRun_all_hits parseChampsimOld ps0.cacheF (initAgg ps0.logF) hhits
      have hn2z : st2.newCount = 0 := hn2
      have hr2 : runOld true scan s2 ps0 =
          ⟨ps0, 0, st2.skipped, st2.parsed, [Eff.mkdirs outDirOld], [],
            [msgUpToDate], 0, false⟩ := by
        simp [runOld, hrun2, hn2z]
      rw [hr1]
      simp [hr2]
    · cases hload : loadPrev ps0.reportF with
      | none =>
        have hx : (runOld true scan true ps0).errs = [msgExcelFail] := by
          simp [runOld, hagg, hz, hload]
        rw [hx] at herr
        simp at herr
      | some ob =>
        cases hbuild : buildOldBook ob st.data with
        | error er =>
          have hx : (runOld true scan true ps0).errs = [msgExcelFail] := by
            simp [runOld, hagg, hz, hload, hbuild]
          rw [hx] at herr
          simp at herr
        | ok bk =>
          have hr1 : runOld true scan true ps0 =
              ⟨⟨st.log, cleanCache st.data, ReportFile.intact bk⟩,
                st.newCount, st.skipped, st.parsed,
                [Eff.mkdirs outDirOld, Eff.saveReport reportPathOld,
                 Eff.saveJson cachePathOld, Eff.saveJson logPathOld],
                [], [msgSuccess], 0, false⟩ := by
            simp [runOld, hagg, hz, hload, hbuild]
          have hhits2 : ∀ e ∈ scan, (classify e.dirParts).isSome →
              lookupA st.log (entryPath e) = some e.mtime :=
            fun e he hs => aggRun_log_self hagg hnd he hs (hread e he)
          obtain ⟨st2, hrun2, hl2, hn2, hp2⟩ :=
            aggRun_all_hits parseChampsimOld (cleanCache st.data)
              (initAgg st.log) hhits2
          have hn2z : st2.newCount = 0 := hn2
          have hr2 : runOld true scan s2
                ⟨st.log, cleanCache st.data, ReportFile.intact bk⟩ =
              ⟨⟨st.log, cleanCache st.data, ReportFile.intact bk⟩, 0,
                st2.skipped, st2.parsed, [Eff.mkdirs outDirOld], [],
                [msgUpToDate], 0, false⟩ := by
            simp [runOld, hrun2, hn2z]
          rw [hr1]
          simp [hr2]

/-- Witness for C1: a one-file scan, run twice from an empty state. -/
theorem c1_idempotence_witness :
    (runOld true [freshEntry] true
        (runOld true [freshEntry] true ⟨[], [], ReportFile.absent⟩).pstate).newCount
      = 0
    ∧ (runOld true [freshEntry] true
        (runOld true [freshEntry] true ⟨[], [], ReportFile.absent⟩).pstate).pstate
      = (runOld true [freshEntry] true ⟨[], [], ReportFile.absent⟩).pstate
    ∧ (runOld true [freshEntry] true
        (runOld true [freshEntry] true ⟨[], [], ReportFile.absent⟩).pstate).trace
      = [Eff.mkdirs outDirOld]
    ∧ (runOld true [freshEntry] true
        (runOld true [freshEntry] true ⟨[], [], ReportFile.absent⟩).pstate).infos
      = [msgUpToDate] :=
  c1_idempotence [freshEntry] ⟨[], [], ReportFile.absent⟩ true
    (by decide) (by decide) (by decide) (by decide)

theorem lookupA_map_val_none {α β : Type} (f : String × α → β)
    {m : List (String × α)} {q : String} (h : lookupA m q = none) :
    lookupA (m.map (fun kv => (kv.1, f kv))) q = none := by
  induction m with
  | nil => rfl
  | cons kv rest ih =>
    obtain ⟨k1, v1⟩ := kv
    by_cases h1 : k1 = q
    · simp [lookupA, h1] at h
    · simp only [lookupA, h1, if_false] at h
      simp only [List.map_cons, lookupA, h1, if_false]
      exact ih h

theorem lookupA_map_val_some {α β : Type} (f : String × α → β)
    {m : List (String × α)} {q : String} {v : α} (h : lookupA m q = some v) :
    lookupA (m.map (fun kv => (kv.1, f kv))) q = some (f (q, v)) := by
  induction m with
  | nil => simp [lookupA] at h
  | cons kv rest ih =>
    obtain ⟨k1, v1⟩ := kv
    by_cases h1 : k1 = q
    · subst h1
      simp only [lookupA, if_pos rfl] at h
      cases h
      simp [lookupA]
    · simp only [lookupA, h1, if_false] at h
      simp only [List.map_cons, lookupA, h1, if_false]
      exact ih h

/-- Cleaning the cache of the internal flag key does not create records:
a group/path absent from the dataset stays absent. -/
theorem lookup2_cleanCache_none {d : Dataset} {g p : String}
    (h : lookup2 d g p = none) : lookup2 (cleanCache d) g p = none := by
  unfold cleanCache
  unfold lookup2 at h ⊢
  cases hl : lookupA d g with
  | none =>
    rw [lookupA_map_val_none (fun gr => gr.2.map (fun pr =>
      (pr.1, pr.2.filter (fun kv => kv.1 ≠ "_is_new")))) hl]
  | some grp =>
    rw [hl] at h
    rw [lookupA_map_val_some (fun gr => gr.2.map (fun pr =>
      (pr.1, pr.2.filter (fun kv => kv.1 ≠ "_is_new")))) hl]
    exact lookupA_map_val_none _ h

/-- C9 (implicit): a run whose only changed file is unreadable still
counts it (the counter is bumped before extraction), so the run skips
the no-op shortcut: it rebuilds and saves the report and rewrites both
cache files, even though no record was added for that file (its path is
absent from the rebuilt data cache) and its log entry was not committed
(the persisted log equals the previous log). -/
theorem c9_unreadable_file_still_counted (scan : List ScanEntry) (ps : PState)
    (e0 : ScanEntry) (g0 x0 : String) (st : AggSt) (ob : Option Book) (bk : Book)
    (hnd : (scan.map entryPath).Nodup) (he0 : e0 ∈ scan)
    (hc0 : classify e0.dirParts = some (g0, x0))
    (hunread : e0.content = none)
    (hmiss : lookupA ps.logF (entryPath e0) ≠ some e0.mtime)
    (hhits : ∀ e ∈ scan, e ≠ e0 → (classify e.dirParts).isSome →
        lookupA ps.logF (entryPath e) = some e.mtime)
    (hagg : aggRun parseChampsimOld ps.cacheF (initAgg ps.logF) scan = .ok st)
    (hload : loadPrev ps.reportF = some ob)
    (hbuild : buildOldBook ob st.data = .ok bk) :
    (runOld true scan true ps).newCount ≠ 0
    ∧ (runOld true scan true ps).trace =
        [Eff.mkdirs outDirOld, Eff.saveReport reportPathOld,
         Eff.saveJson cachePathOld, Eff.saveJson logPathOld]
    ∧ (runOld true scan true ps).pstate.logF = ps.logF
    ∧ lookup2 (runOld true scan true ps).pstate.cacheF g0 (entryPath e0)
        = none := by
  obtain ⟨l1, l2, rfl⟩ := List.append_of_mem he0
  have hndm := hnd
  rw [List.map_append, List.map_cons, List.nodup_append] at hndm
  obtain ⟨hn1, hn2, hn3⟩ := hndm
  have hp0l2 : entryPath e0 ∉ l2.map entryPath := (List.nodup_cons.mp hn2).1
  have hp0l1 : entryPath e0 ∉ l1.map entryPath :=
    fun hm => hn3 hm (List.mem_cons_self _ _)
  have hyp1 : ∀ e ∈ l1, (classify e.dirParts).isSome →
      lookupA (initAgg ps.logF).log (entryPath e) = some e.mtime := by
    intro e he hs
    refine hhits e (List.mem_append_left _ he) (fun heq => ?_) hs
    exact hp0l1 (heq ▸ List.mem_map.mpr ⟨e, he, rfl⟩)
  obtain ⟨st1, hrun1, hlog1, hcnt1, hpar1⟩ :=
    aggRun_all_hits parseChampsimOld ps.cacheF (initAgg ps.logF) hyp1
  have hmiss1 : ¬ lookupA st1.log (entryPath e0) = some e0.mtime := by
    rw [hlog1]
    exact hmiss
  have hstep : aggStep parseChampsimOld ps.cacheF st1 e0 =
      .ok ⟨st1.log, st1.data, st1.newCount + 1, st1.skipped,
           st1.parsed ++ [entryPath e0]⟩ := by
    simp [aggStep, hc0, hunread, hmiss1]
  have hyp2 : ∀ e ∈ l2, (classify e.dirParts).isSome →
      lookupA st1.log (entryPath e) = some e.mtime := by
    intro e he hs
    have hne : e ≠ e0 :=
      fun heq => hp0l2 (heq ▸ List.mem_map.mpr ⟨e, he, rfl⟩)
    have hh := hhits e (List.mem_append_right _ (List.mem_cons_of_mem _ he)) hne hs
    rw [hlog1]
    exact hh
  obtain ⟨st2, hrun3, hlog3, hcnt3, hpar3⟩ :=
    aggRun_all_hits parseChampsimOld ps.cacheF
      ⟨st1.log, st1.data, st1.newCount + 1, st1.skipped,
       st1.parsed ++ [entryPath e0]⟩ hyp2
  have hwhole : aggRun parseChampsimOld ps.cacheF (initAgg ps.logF)
      (l1 ++ e0 :: l2) = .ok st2 := by
    rw [aggRun_append, hrun1]
    simp only [aggRun, hstep]
    exact hrun3
  rw [hagg] at hwhole
  have hst : st = st2 := by
    injection hwhole
  have hcount : st.newCount ≠ 0 := by
    rw [hst, hcnt3]
    exact Nat.succ_ne_zero _
  have hlog : st.log = ps.logF := by
    rw [hst, hlog3]
    exact hlog1
  have hdata : lookup2 st.data g0 (entryPath e0) = none := by
    have hd1 : lookup2 st1.data g0 (entryPath e0) = none := by
      rw [aggRun_data_ne hrun1
        (fun e he hpe => hp0l1 (List.mem_map.mpr ⟨e, he, hpe⟩))]
      rfl
    rw [hst, aggRun_data_ne hrun3
      (fun e he hpe => hp0l2 (List.mem_map.mpr ⟨e, he, hpe⟩))]
    exact hd1
  have hrun : runOld true (l1 ++ e0 :: l2) true ps =
      ⟨⟨st.log, cleanCache st.data, ReportFile.intact bk⟩,
        st.newCount, st.skipped, st.parsed,
        [Eff.mkdirs outDirOld, Eff.saveReport reportPathOld,
         Eff.saveJson cachePathOld, Eff.saveJson logPathOld],
        [], [msgSuccess], 0, false⟩ := by
    simp [runOld, hagg, hcount, hload, hbuild]
  rw [hrun]
  exact ⟨hcount, rfl, hlog, lookup2_cleanCache_none hdata⟩

/-- Witness for C9: the unreadable changed file is the only scanned
file, the previous state is empty. -/
theorem c9_unreadable_file_still_counted_witness :
    (runOld true [unreadableEntry] true ⟨[], [], ReportFile.absent⟩).newCount ≠ 0
    ∧ (runOld true [unreadableEntry] true ⟨[], [], ReportFile.absent⟩).trace =
        [Eff.mkdirs outDirOld, Eff.saveReport reportPathOld,
         Eff.saveJson cachePathOld, Eff.saveJson logPathOld]
    ∧ (runOld true [unreadableEntry] true
        ⟨[], [], ReportFile.absent⟩).pstate.logF = []
    ∧ lookup2 (runOld true [unreadableEntry] true
        ⟨[], [], ReportFile.absent⟩).pstate.cacheF "no_pref"
        (entryPath unreadableEntry) = none :=
  c9_unreadable_file_still_counted [unreadableEntry] ⟨[], [], ReportFile.absent⟩
    unreadableEntry "no_pref" "exp1" ⟨[], [], 1, 0, [entryPath unreadableEntry]⟩
    none []
    (by decide) (by decide) (by decide) (by decide) (by decide) (by decide)
    (by decide) (by decide) (by decide)

/-- C6: Preservation of non-owned report sections.  In both variants,
every sheet of the previously persisted workbook whose name does not
carry the `raw_` prefix appears in the newly produced workbook with its
cell values unchanged, and for every group with data the `raw_` sheet of
the new workbook is exactly the freshly rendered sheet of that group's
records — fully replaced, independent of any previous content. -/
theorem c6_preservation (ob : Book) (ds : Dataset)
    (hndb : (ob.map Prod.fst).Nodup) (hnds : (ds.map Prod.fst).Nodup) :
    (∀ nb, buildNewBook (some ob) ds = .ok nb →
      (∀ nm sh, (nm, sh) ∈ ob → startsWithRawB nm = false →
          lookupA nb nm = some sh)
      ∧ (∀ g recs sh, lookupA ds g = some recs → recs.isEmpty = false →
          renderRawSheetNew g (recs.map Prod.snd) = .ok sh →
          lookupA nb (rawName g) = some sh))
    ∧ (∀ ob2, buildOldBook (some ob) ds = .ok ob2 →
      (∀ nm sh, (nm, sh) ∈ ob → startsWithRawB nm = false →
          lookupA ob2 nm = some sh)
      ∧ (∀ g recs sh, lookupA ds g = some recs → recs.isEmpty = false →
          renderRawSheetOld g (recs.map Prod.snd) = .ok sh →
          lookupA ob2 (rawName g) = some sh)) := by
  constructor
  · intro nb hb
    simp only [buildNewBook] at hb
    cases hraws : buildRaws ds (sortStrings (ds.map Prod.fst)) with
    | error er =>
      rw [hraws] at hb
      simp at hb
    | ok raws =>
      rw [hraws] at hb
      have hnb : nb = ob.filter (fun s => !(startsWithRawB s.1)) ++ raws := by
        injection hb with h
        exact h.symm
      constructor
      · intro nm sh hmem hraw
        rw [hnb]
        exact lookupA_append_some
          (lookupA_filter_of_mem _ hmem hndb (by simp [hraw]))
      · intro g recs sh hrecs hne hsh
        rw [hnb, lookupA_append_none _ (lookupA_preserved_rawName_none ob g)]
        exact buildRaws_lookup hraws (nodup_sortStrings hnds)
          (mem_sortStrings.mpr (lookupA_some_mem hrecs)) hrecs hne hsh
  · intro ob2 hb
    unfold buildOldBook at hb
    constructor
    · intro nm sh hmem hraw
      have hq : ∀ g' ∈ sortStrings (ds.map Prod.fst), rawName g' ≠ nm := by
        intro g' hg' he
        have hsw := startsWithRawB_rawName g'
        rw [he, hraw] at hsw
        simp at hsw
      rw [buildOldGo_lookup_ne hb hq]
      exact lookupA_of_mem_nodup hmem hndb
    · intro g recs sh hrecs hne hsh
      exact buildOldGo_raw hb hndb (nodup_sortStrings hnds)
        (mem_sortStrings.mpr (lookupA_some_mem hrecs)) hrecs hne hsh

/-- Witness for C6: the hand-made sheet survives both rebuilds with its
values, and the pipeline-owned sheet equals the fresh render. -/
theorem c6_preservation_witness :
    lookupA (bookOfExcept (buildNewBook (some c6Ob) c6Ds)) "notes"
        = some [((1, 1), some (PyVal.str "keep"))]
    ∧ lookupA (bookOfExcept (buildOldBook (some c6Ob) c6Ds)) "notes"
        = some [((1, 1), some (PyVal.str "keep"))]
    ∧ lookupA (bookOfExcept (buildNewBook (some c6Ob) c6Ds)) (rawName "no_pref")
        = some (sheetOfExcept (renderRawSheetNew "no_pref" [c6Rec]))
    ∧ lookupA (bookOfExcept (buildOldBook (some c6Ob) c6Ds)) (rawName "no_pref")
        = some (sheetOfExcept (renderRawSheetOld "no_pref" [c6Rec])) := by
  have h := c6_preservation c6Ob c6Ds (by decide) (by decide)
  have hbn : buildNewBook (some c6Ob) c6Ds
      = .ok (bookOfExcept (buildNewBook (some c6Ob) c6Ds)) := by decide
  have hbo : buildOldBook (some c6Ob) c6Ds
      = .ok (bookOfExcept (buildOldBook (some c6Ob) c6Ds)) := by decide
  refine ⟨?_, ?_, ?_, ?_⟩
  · exact (h.1 _ hbn).1 "notes" _ (by decide) (by decide)
  · exact (h.2 _ hbo).1 "notes" _ (by decide) (by decide)
  · exact (h.1 _ hbn).2 "no_pref" [("p1", c6Rec)]
      (sheetOfExcept (renderRawSheetNew "no_pref" [c6Rec]))
      (by decide) (by decide) (by decide)
  · exact (h.2 _ hbo).2 "no_pref" [("p1", c6Rec)]
      (sheetOfExcept (renderRawSheetOld "no_pref" [c6Rec]))
      (by decide) (by decide) (by decide)

end ChampsimCollect
